import Mathlib

/-!
A shallow embedding of the mutable URL container of this repository
(`include/boost/url/impl/basic_value.ipp`), together with the parts of the
grammar parser and percent-encoding engine it calls.

The container state is a byte buffer (here `List Char`, including the
trailing NUL byte), a table of nine component offsets
(ids: 0 scheme, 1 user, 2 password, 3 host, 4 port, 5 path, 6 query,
7 fragment, 8 end) and the optional numeric port.

Functions of `basic_value.ipp` are translated directly.  The helpers it
calls from `detail::` (character sets, the percent-encoding engine, the
grammar parsers) are not part of the sources; they are modelled from the
specification and carry a doc comment saying so.  C++ exceptions
(`invalid_part::raise()`) are modelled by a result type that carries the
state observable when the exception escapes.
-/

/-! ## Character classification (modelled from the spec, §4.1) -/

/-- Modelled from the spec: `ALPHA` (RFC 3986), ASCII letters. -/
def isAlphaCh (c : Char) : Bool := c.isAlpha

/-- Modelled from the spec: `DIGIT`. -/
def isDigitCh (c : Char) : Bool := c.isDigit

/-- Modelled from the spec: `HEXDIG`, both cases accepted on parse. -/
def isHexDigitCh (c : Char) : Bool :=
  c.isDigit || ('A' ≤ c && c ≤ 'F') || ('a' ≤ c && c ≤ 'f')

/-- Modelled from the spec: `unreserved = ALPHA | DIGIT | "-._~"`. -/
def isUnreservedCh (c : Char) : Bool :=
  isAlphaCh c || isDigitCh c || c = '-' || c = '.' || c = '_' || c = '~'

/-- Modelled from the spec: `sub-delims = "!$&'()*+,;="`
    (the apostrophe is written as `Char.ofNat 39`). -/
def isSubDelimCh (c : Char) : Bool :=
  c = '!' || c = '$' || c = '&' || c = Char.ofNat 39 || c = '(' || c = ')' ||
  c = '*' || c = '+' || c = ',' || c = ';' || c = '='

/-- Modelled from the spec: `userinfo-nc = unreserved | sub-delims`
    (the user part of the userinfo; no colon). -/
def maskUserinfoNC (c : Char) : Bool := isUnreservedCh c || isSubDelimCh c

/-- Modelled from the spec: `userinfo = unreserved | sub-delims | ":"`. -/
def maskUserinfo (c : Char) : Bool := maskUserinfoNC c || c = ':'

/-- Modelled from the spec: `reg-name = unreserved | sub-delims`. -/
def maskRegName (c : Char) : Bool := isUnreservedCh c || isSubDelimCh c

/-- Modelled from the spec: `pchar = unreserved | sub-delims | ":" | "@"`. -/
def maskPChar (c : Char) : Bool := maskUserinfo c || c = '@'

/-- Modelled from the spec: `query = pchar | "/" | "?"`. -/
def maskQuery (c : Char) : Bool := maskPChar c || c = '/' || c = '?'

/-- Modelled from the spec: `fragment = pchar | "/" | "?"`. -/
def maskFrag (c : Char) : Bool := maskPChar c || c = '/' || c = '?'

/-- Modelled from the spec: the byte alphabet of a path
    (`pchar` plus the `/` separator). -/
def maskPath (c : Char) : Bool := maskPChar c || c = '/'

/-! ## Percent-encoding engine (modelled from the spec, §4.2) -/

/-- Modelled from the spec: value of a hex digit (case-insensitive). -/
def hexVal (c : Char) : Nat :=
  if c.isDigit then c.toNat - 48
  else if 'A' ≤ c && c ≤ 'F' then c.toNat - 55
  else if 'a' ≤ c && c ≤ 'f' then c.toNat - 87
  else 0

/-- Modelled from the spec: hex digit emitted on encode (upper case). -/
def hexDigitCh (n : Nat) : Char :=
  if n < 10 then Char.ofNat (48 + n) else Char.ofNat (55 + n)

/-- Modelled from the spec: `pct_set.parse` — consume the longest prefix of
    bytes that are in the mask or are well-formed `%HH` triplets; return the
    consumed length and the rest, or `none` on a malformed `%HH`
    (`bad_pct_hexdig`). -/
def pctParse (m : Char → Bool) : List Char → Option (Nat × List Char)
  | [] => some (0, [])
  | '%' :: rest =>
    match rest with
    | h :: l :: r2 =>
      if isHexDigitCh h && isHexDigitCh l then
        match pctParse m r2 with
        | some (k, rem) => some (k + 3, rem)
        | none => none
      else none
    | _ => none
  | c :: rest =>
    if m c then
      match pctParse m rest with
      | some (k, rem) => some (k + 1, rem)
      | none => none
    else some (0, c :: rest)

/-- Modelled from the spec: `pct_set.validate` — succeeds iff the whole
    string is consumed by `pctParse`. -/
def pctValidate (m : Char → Bool) (s : List Char) : Bool :=
  match pctParse m s with
  | some (_, []) => true
  | _ => false

/-- Modelled from the spec: `pct_set.encode` — bytes in the mask pass
    through, all others expand to `%HH`. -/
def pctEncode (m : Char → Bool) : List Char → List Char
  | [] => []
  | c :: t =>
    (if m c then [c]
     else ['%', hexDigitCh (c.toNat / 16), hexDigitCh (c.toNat % 16)]) ++
      pctEncode m t

/-- Modelled from the spec: `pct_set.decode` — meaningful on validated
    input; a `%HH` triplet becomes the byte `HH` (other bytes pass
    through). -/
def pctDecode : List Char → List Char
  | [] => []
  | c :: rest =>
    if c = '%' then
      match rest with
      | h :: l :: r2 => Char.ofNat (16 * hexVal h + hexVal l) :: pctDecode r2
      | _ => c :: rest
    else c :: pctDecode rest

/-! ## The container state -/

/-- Component ids, as in `detail::` of the source:
`0` scheme, `1` user, `2` password, `3` host, `4` port, `5` path,
`6` query, `7` fragment, `8` end. -/
def idEnd : Nat := 8

/-- List indexing for the offset table (out-of-range reads give 0). -/
def nth : List Nat → Nat → Nat
  | [], _ => 0
  | a :: _, 0 => a
  | _ :: t, i + 1 => nth t i

/-- Build a 9-entry offset table from an index function. -/
def mkTbl (f : Nat → Nat) : List Nat :=
  [f 0, f 1, f 2, f 3, f 4, f 5, f 6, f 7, f 8]

/-- The URL container: buffer (with the trailing NUL byte), offset table,
    parsed numeric port (`pt_.port`). -/
structure Url where
  buf : List Char
  tbl : List Nat
  port : Option Nat
  deriving DecidableEq, Repr

/-- `pt_.offset[i]`. -/
def Url.off (u : Url) (i : Nat) : Nat := nth u.tbl i

/-- `pt_.length(id)` — length of component `i`'s region. -/
def Url.len (u : Url) (i : Nat) : Nat := u.off (i + 1) - u.off i

/-- `pt_.length(first, last)` — length of the regions `first ≤ i < last`. -/
def Url.lenR (u : Url) (first last : Nat) : Nat := u.off last - u.off first

/-- A slice of a byte list: `n` bytes starting at `a`. -/
def seg (l : List Char) (a n : Nat) : List Char := (l.drop a).take n

/-- `pt_.get(id)` — the bytes of component `i`'s region. -/
def Url.get (u : Url) (i : Nat) : List Char := seg u.buf (u.off i) (u.len i)

/-- `pt_.get(first, last)`. -/
def Url.getR (u : Url) (first last : Nat) : List Char :=
  seg u.buf (u.off first) (u.lenR first last)

/-- The encoded URL as returned by `c_str()`, without the trailing NUL. -/
def urlString (u : Url) : List Char := u.buf.dropLast

/-- Well-formed container state: offset 0 is 0, offsets are monotone, the
    buffer is the encoded URL plus one trailing NUL byte, and the table has
    its nine entries. -/
def WF (u : Url) : Prop :=
  u.tbl.length = 9 ∧ u.off 0 = 0 ∧ (∀ i, i < 8 → u.off i ≤ u.off (i + 1)) ∧
  u.buf.length = u.off 8 + 1 ∧ u.buf.getLast? = some '\x00'

instance (u : Url) : Decidable (WF u) := by
  unfold WF; infer_instance

/-- Errors surfaced by the container: `invalid_part::raise()`. -/
inductive Err where
  | invalidPart
  deriving DecidableEq, Repr

/-- Result of a mutating operation.  A C++ exception escapes with the
    object still alive, so the error case carries the state observable
    after the throw. -/
inductive Res where
  | ok (u : Url)
  | err (e : Err) (u : Url)
  deriving DecidableEq, Repr

/-- The container state after the operation (also on error). -/
def Res.st : Res → Url
  | .ok u => u
  | .err _ u => u

def Res.isOk : Res → Bool
  | .ok _ => true
  | .err _ _ => false

/-! ## Buffer + resize engine (from `basic_value.ipp`, `resize`) -/

/-- Fill used for buffer bytes that the C++ code leaves unspecified after a
    grow (they are always overwritten before an operation completes). -/
def padTake (l : List Char) (n : Nat) : List Char :=
  l.take n ++ List.replicate (n - l.length) '\x00'

/-- The bytes of the spliced region after a `resize`: a shrink keeps the
    leading bytes of the old region, a grow keeps the old region and opens
    a hole after it (the hole content is never observed: every setter
    overwrites it before completing). -/
def rContent (u : Url) (first last n : Nat) : List Char :=
  if n ≤ u.lenR first last then
    ((u.buf.drop (u.off first)).take (u.lenR first last)).take n
  else
    (u.buf.drop (u.off first)).take (u.lenR first last) ++
      padTake (u.buf.drop (u.off last)) (n - u.lenR first last)

/-- `basic_value::resize(first, last, new_size)`: replace the regions
    `first ≤ i < last` by a region of `new_size` bytes, shift the
    suffix — including the trailing NUL — intact, collapse the intermediate
    offsets, and shift the offsets at and after `last` by the delta. -/
def resizeR (first last n : Nat) (u : Url) : Url :=
  { buf := u.buf.take (u.off first) ++ rContent u first last n ++
      u.buf.drop (u.off last)
    tbl := mkTbl fun i =>
      if i ≤ first then u.off i
      else if i < last then u.off first + n
      else u.off i + n - u.lenR first last
    port := u.port }

/-- `basic_value::resize(id, new_size)` — the single-component overload;
    same semantics as `resizeR id (id+1)`. -/
def resize (id n : Nat) (u : Url) : Url := resizeR id (id + 1) n u

/-- Write bytes into the buffer at an absolute position (the writes the
    setters perform through the `char* dest` returned by `resize`). -/
def writeB (p : Nat) (bs l : List Char) : List Char :=
  l.take p ++ bs ++ l.drop (p + bs.length)

/-- `store` lifted to the container. -/
def Url.store (u : Url) (p : Nat) (bs : List Char) : Url :=
  { u with buf := writeB p bs u.buf }

/-- `pt_.split(id, n)`: set `offset[id+1] = offset[id] + n`. -/
def Url.split (u : Url) (id n : Nat) : Url :=
  { u with tbl := mkTbl fun i => if i = id + 1 then u.off id + n else u.off i }

/-- `pt_.port = p`. -/
def Url.setPortNum (u : Url) (p : Option Nat) : Url := { u with port := p }

/-! ## Grammar parsers (modelled from the spec, §4.3) -/

/-- Modelled from the spec: the tail characters of
    `scheme = ALPHA *( ALPHA / DIGIT / "+" / "-" / "." )`. -/
def isSchemeCh (c : Char) : Bool :=
  isAlphaCh c || isDigitCh c || c = '+' || c = '-' || c = '.'

/-- Modelled from the spec: `detail::parse_scheme` — the scheme production
    matched against the full string. -/
def isScheme (s : List Char) : Bool :=
  match s with
  | c :: rest => isAlphaCh c && rest.all isSchemeCh
  | [] => false

/-- Decimal value of a digit string. -/
def digitsVal (s : List Char) : Nat :=
  s.foldl (fun a c => 10 * a + (c.toNat - 48)) 0

/-- Modelled from the spec: the numeric port value of a digit string —
    present iff the string is non-empty and its value fits in `u16`
    (an empty or overflowing port string is a soft error:
    `port_number = none`). -/
def portNum (s : List Char) : Option Nat :=
  if s = [] then none
  else if digitsVal s ≤ 65535 then some (digitsVal s) else none

/-- Modelled from the spec: `detail::parse_port` — `port = *DIGIT`; fails
    on a non-digit, otherwise yields the optional numeric value. -/
def parse_port (s : List Char) : Option (Option Nat) :=
  if s.all isDigitCh then some (portNum s) else none

/-- Modelled from the spec: `detail::parse_path_abempty` —
    `path-abempty = *( "/" segment )` matched against the full string:
    empty, or a string over the path alphabet (with valid percent
    triplets) that starts with `/`. -/
def isPathAbempty (s : List Char) : Bool :=
  s.isEmpty || (s.head? = some '/' && pctValidate maskPath s)

/-- Split a byte list on a separator character. -/
def splitOnCh (sep : Char) (l : List Char) : List (List Char) :=
  l.foldr
    (fun c acc =>
      if c = sep then [] :: acc
      else match acc with
        | [] => [[c]]
        | g :: gs => (c :: g) :: gs)
    [[]]

/-- Modelled from the spec: one decimal octet of `IPv4address`
    (0–255, no leading zero). -/
def isOctet (g : List Char) : Bool :=
  !g.isEmpty && g.all isDigitCh && digitsVal g ≤ 255 &&
    (g.head? ≠ some '0' || g.length = 1)

/-- Modelled from the spec: `IPv4address` — four dot-separated octets. -/
def isIPv4 (s : List Char) : Bool :=
  let gs := splitOnCh '.' s
  gs.length = 4 && gs.all isOctet

/-- Modelled from the spec: `h16` — one to four hex digits. -/
def isH16 (g : List Char) : Bool :=
  !g.isEmpty && g.length ≤ 4 && g.all isHexDigitCh

/-- Split at the first `::`, if any. -/
def splitDC : List Char → Option (List Char × List Char)
  | ':' :: ':' :: r => some ([], r)
  | c :: r =>
    match splitDC r with
    | some (a, b) => some (c :: a, b)
    | none => none
  | [] => none

/-- Groups of a (possibly empty) colon-separated piece. -/
def colonGroups (l : List Char) : List (List Char) :=
  if l = [] then [] else splitOnCh ':' l

/-- Weight of one group: an embedded IPv4 address counts as two 16-bit
    pieces, an `h16` as one. -/
def groupWeight (g : List Char) : Nat := if isIPv4 g then 2 else 1

/-- Modelled from the spec: a group run where every group is `h16`, except
    that the last may be an embedded IPv4 address (`ls32`). -/
def groupsOk : List (List Char) → Bool
  | [] => true
  | [g] => isH16 g || isIPv4 g
  | g :: gs => isH16 g && groupsOk gs

/-- Sum of group weights. -/
def groupsWeight (gs : List (List Char)) : Nat :=
  gs.foldl (fun a g => a + groupWeight g) 0

/-- Modelled from the spec: `IPv6address` — the full RFC 3986 §3.2.2
    grammar: without `::` exactly eight 16-bit pieces; with one `::`
    at most seven, the pieces before the `::` all `h16` and the embedded
    IPv4 only in final position. -/
def isIPv6 (s : List Char) : Bool :=
  match splitDC s with
  | none =>
    let gs := splitOnCh ':' s
    groupsOk gs && groupsWeight gs = 8
  | some (a, b) =>
    splitDC b = none &&
    (colonGroups a).all isH16 && groupsOk (colonGroups b) &&
    groupsWeight (colonGroups a) + groupsWeight (colonGroups b) ≤ 7

/-- Modelled from the spec:
    `IPvFuture = "v" 1*HEXDIG "." 1*( unreserved / sub-delims / ":" )`. -/
def isIPvFuture (s : List Char) : Bool :=
  match s with
  | 'v' :: r =>
    let hx := r.takeWhile isHexDigitCh
    !hx.isEmpty &&
      (match r.dropWhile isHexDigitCh with
       | '.' :: tl => !tl.isEmpty &&
           tl.all fun c => isUnreservedCh c || isSubDelimCh c || c = ':'
       | _ => false)
  | _ => false

/-- Modelled from the spec: parse `[ ":" port ]` after a host. -/
def parsePortPart (l : List Char) : Option (List Char × Option Nat) :=
  match l with
  | [] => some ([], none)
  | ':' :: ds => if ds.all isDigitCh then some (':' :: ds, portNum ds) else none
  | _ => none

/-- Modelled from the spec: `authority = [ userinfo "@" ] host [ ":" port ]`.
    Returns the stored regions in the container's prefix-delimited
    convention — user `"//<user>"`, password `":<pass>@"` / `"@"` / empty,
    host, port `":<digits>"` — plus the numeric port. -/
def parseAuthority (a : List Char) :
    Option (List Char × List Char × List Char × List Char × Option Nat) :=
  let userpass : Option (List Char × List Char) :=
    if a.any (· = '@') then
      let ui := a.takeWhile (· ≠ '@')
      let us := ui.takeWhile (· ≠ ':')
      if pctValidate maskUserinfoNC us then
        match ui.dropWhile (· ≠ ':') with
        | [] => some ('/' :: '/' :: us, ['@'])
        | ':' :: pw =>
          if pctValidate maskUserinfo pw then
            some ('/' :: '/' :: us, ':' :: pw ++ ['@'])
          else none
        | _ => none
      else none
    else some (['/', '/'], [])
  match userpass with
  | none => none
  | some (userR, passR) =>
    let hp := if a.any (· = '@') then (a.dropWhile (· ≠ '@')).drop 1 else a
    match hp with
    | '[' :: rest =>
      let inner := rest.takeWhile (· ≠ ']')
      (match rest.dropWhile (· ≠ ']') with
       | ']' :: after =>
         if isIPv6 inner || isIPvFuture inner then
           match parsePortPart after with
           | some (portR, pn) =>
             some (userR, passR, '[' :: inner ++ [']'], portR, pn)
           | none => none
         else none
       | _ => none)
    | _ =>
      let hst := hp.takeWhile (· ≠ ':')
      if isIPv4 hst || pctValidate maskRegName hst then
        match parsePortPart (hp.dropWhile (· ≠ ':')) with
        | some (portR, pn) => some (userR, passR, hst, portR, pn)
        | none => none
      else none

/-- Modelled from the spec: split a leading `scheme ":"`; when the string
    has no such prefix the URL is a relative-ref and the scheme region is
    empty. -/
def splitScheme (s : List Char) : List Char × List Char :=
  match s with
  | c :: _ =>
    if isAlphaCh c then
      match s.dropWhile isSchemeCh with
      | ':' :: r => (s.takeWhile isSchemeCh ++ [':'], r)
      | _ => ([], s)
    else ([], s)
  | [] => ([], s)

/-- Modelled from the spec: `[ "?" query ] [ "#" fragment ]` at the end of
    a URI-reference; returns the stored query (`"?…"`) and fragment
    (`"#…"`) regions. -/
def parseQueryFrag (r : List Char) : Option (List Char × List Char) :=
  match r with
  | '?' :: rest =>
    let q := rest.takeWhile (· ≠ '#')
    if pctValidate maskQuery q then
      match rest.dropWhile (· ≠ '#') with
      | [] => some ('?' :: q, [])
      | '#' :: f =>
        if pctValidate maskFrag f then some ('?' :: q, '#' :: f) else none
      | _ => none
    else none
  | '#' :: f => if pctValidate maskFrag f then some ([], '#' :: f) else none
  | [] => some ([], [])
  | _ => none

/-- Modelled from the spec: the context-sensitive path constraint when a
    scheme is present and no authority: empty, `path-absolute`, or
    `path-rootless`. -/
def isPathWithScheme (p : List Char) : Bool :=
  p.isEmpty ||
    (pctValidate maskPath p &&
      (match p with
       | '/' :: '/' :: _ => false
       | _ => true))

/-- Modelled from the spec: the path constraint with neither scheme nor
    authority: empty, `path-absolute`, or `path-noscheme` (no `:` in the
    first segment). -/
def isPathNoScheme (p : List Char) : Bool :=
  p.isEmpty ||
    (pctValidate maskPath p &&
      (match p with
       | '/' :: '/' :: _ => false
       | '/' :: _ => true
       | _ => (p.takeWhile (· ≠ '/')).all (· ≠ ':')))

/-- The parts table produced by the URL parser: the nine offsets plus the
    numeric port (`detail::parts`, restricted to the fields the modelled
    operations use). -/
structure Parts where
  tbl : List Nat
  port : Option Nat
  deriving DecidableEq, Repr

/-- Offsets from the eight region lengths. -/
def tblOfLens (ls : List Nat) : List Nat := ls.scanl (fun a b => a + b) 0

/-- Modelled from the spec: `detail::parse_url` — `URI-reference =
    URI / relative-ref`, emitting the component offsets in the container's
    prefix-delimited convention and the numeric port. -/
def parse_url (s : List Char) : Option Parts :=
  let (sch, r1) := splitScheme s
  match r1 with
  | '/' :: '/' :: r2 =>
    let stopA : Char → Bool := fun c => c = '/' || c = '?' || c = '#'
    let auth := r2.takeWhile (fun c => !stopA c)
    let r3 := r2.dropWhile (fun c => !stopA c)
    (match parseAuthority auth with
     | none => none
     | some (userR, passR, hostR, portR, pn) =>
       let path := r3.takeWhile fun c => c ≠ '?' && c ≠ '#'
       let r4 := r3.dropWhile fun c => c ≠ '?' && c ≠ '#'
       if isPathAbempty path then
         match parseQueryFrag r4 with
         | some (qR, fR) =>
           some { tbl := tblOfLens [sch.length, userR.length, passR.length,
                    hostR.length, portR.length, path.length,
                    qR.length, fR.length]
                  port := pn }
         | none => none
       else none)
  | _ =>
    let path := r1.takeWhile fun c => c ≠ '?' && c ≠ '#'
    let r4 := r1.dropWhile fun c => c ≠ '?' && c ≠ '#'
    if (if sch.isEmpty then isPathNoScheme path else isPathWithScheme path) then
      match parseQueryFrag r4 with
      | some (qR, fR) =>
        some { tbl := tblOfLens [sch.length, 0, 0, 0, 0, path.length,
                 qR.length, fR.length]
               port := none }
      | none => none
    else none

/-! ## URL container — write operations (from `basic_value.ipp`) -/

/-- `basic_value::set_encoded_url`: empty clears; otherwise parse the whole
    string as a URI-reference, install the parts table and copy the bytes
    verbatim. -/
def set_encoded_url (s : List Char) (u : Url) : Res :=
  if s = [] then .ok (resizeR 0 idEnd 0 u)
  else
    match parse_url s with
    | none => .err .invalidPart u
    | some pt => .ok { buf := s ++ ['\x00'], tbl := pt.tbl, port := pt.port }

/-- `basic_value::set_scheme`: empty removes the scheme; otherwise the
    string must match the scheme production and is stored with a trailing
    `:`. -/
def set_scheme (s : List Char) (u : Url) : Res :=
  if s = [] then .ok (resize 0 0 u)
  else if isScheme s then
    let u1 := resize 0 (s.length + 1) u
    .ok (u1.store (u1.off 0) (s ++ [':']))
  else .err .invalidPart u

/-- `basic_value::set_encoded_userinfo`: empty keeps `"//"` iff host/port
    bytes remain; otherwise the string must split as
    `user [":" password]` over the userinfo sets, and is stored as
    `"//" s "@"` with the user/password boundary at the parsed prefix
    length `n0` (the source splits at `n0`, not `2 + n0`). -/
def set_encoded_userinfo (s : List Char) (u : Url) : Res :=
  if s = [] then
    if u.lenR 3 5 = 0 then .ok (resizeR 1 3 0 u)
    else .ok (resizeR 1 3 2 u)
  else
    match pctParse maskUserinfoNC s with
    | none => .err .invalidPart u
    | some (n0, rest) =>
      match pctParse maskUserinfo rest with
      | none => .err .invalidPart u
      | some (_, rest2) =>
        if rest2 = [] then
          let u1 := resizeR 1 3 (2 + s.length + 1) u
          let d := u1.off 1
          let u2 := u1.store d ['/', '/']
          let u3 := u2.store (d + 2) s
          let u4 := u3.split 1 n0
          .ok (u4.store (d + 2 + s.length) ['@'])
        else .err .invalidPart u

/-- `basic_value::set_username`: empty removes the user (dropping the
    whole userinfo when the password region is the bare `"@"`), otherwise
    percent-encode and store after the preserved `"//"`, appending `"@"`
    when no password region exists. -/
def set_username (s : List Char) (u : Url) : Res :=
  if s = [] then
    if u.len 1 = 0 then .ok u
    else if u.len 2 = 1 then .ok (resizeR 1 3 2 u)
    else .ok (resize 1 2 u)
  else
    let enc := pctEncode maskUserinfoNC s
    if u.len 2 ≠ 0 then
      let u1 := resize 1 (2 + enc.length) u
      .ok (u1.store (u1.off 1 + 2) enc)
    else
      let u1 := resize 1 (2 + enc.length + 1) u
      let d := u1.off 1
      let u2 := u1.store d ['/', '/']
      let u3 := u2.store (d + 2 + enc.length) ['@']
      let u4 := u3.split 1 (2 + enc.length)
      .ok (u4.store (d + 2) enc)

/-- `basic_value::set_encoded_username`: like `set_username` but the string
    is validated against the user set and stored verbatim. -/
def set_encoded_username (s : List Char) (u : Url) : Res :=
  if s = [] then set_username [] u
  else if pctValidate maskUserinfoNC s then
    if u.len 2 ≠ 0 then
      let u1 := resize 1 (2 + s.length) u
      .ok (u1.store (u1.off 1 + 2) s)
    else
      let u1 := resize 1 (2 + s.length + 1) u
      let d := u1.off 1
      let u2 := u1.store d ['/', '/']
      let u3 := u2.store (d + 2 + s.length) ['@']
      let u4 := u3.split 1 (2 + s.length)
      .ok (u4.store (d + 2) s)
  else .err .invalidPart u

/-- `basic_value::set_password`: empty removes the password (keeping a bare
    `"@"` when a user exists); otherwise percent-encode and store as
    `":<enc>@"`, creating `"//"` and an empty user when the user region is
    empty. -/
def set_password (s : List Char) (u : Url) : Res :=
  if s = [] then
    if u.len 2 = 0 then .ok u
    else if u.len 1 = 2 then .ok (resize 2 0 u)
    else
      let u1 := resize 2 1 u
      .ok (u1.store (u1.off 2) ['@'])
  else
    let enc := pctEncode maskUserinfo s
    let n := enc.length
    if u.len 1 ≠ 0 then
      let u1 := resize 2 (1 + n + 1) u
      let d := u1.off 2
      .ok (((u1.store d [':']).store (d + n + 1) ['@']).store (d + 1) enc)
    else
      let u1 := resizeR 1 3 (2 + 1 + n + 1) u
      let d := u1.off 1
      let u2 := ((u1.store d ['/', '/']).store (d + 2) [':']).store
        (d + 2 + n + 1) ['@']
      .ok ((u2.store (d + 3) enc).split 1 2)

/-- `basic_value::set_encoded_password`: empty delegates to
    `set_password`; a leading `:` is rejected before validation; otherwise
    the validated string is stored verbatim as `":<s>@"` with the same
    structural handling as `set_password`. -/
def set_encoded_password (s : List Char) (u : Url) : Res :=
  if s = [] then set_password [] u
  else if s.head? = some ':' then .err .invalidPart u
  else if pctValidate maskUserinfo s then
    let n := s.length
    if u.len 1 ≠ 0 then
      let u1 := resize 2 (1 + n + 1) u
      let d := u1.off 2
      .ok (((u1.store d [':']).store (d + n + 1) ['@']).store (d + 1) s)
    else
      let u1 := resizeR 1 3 (2 + 1 + n + 1) u
      let d := u1.off 1
      let u2 := ((u1.store d ['/', '/']).store (d + 2) [':']).store
        (d + 2 + n + 1) ['@']
      .ok ((u2.store (d + 3) s).split 1 2)
  else .err .invalidPart u

/-- `basic_value::set_hostname`: empty removes the hostname region;
    otherwise the string is percent-encoded with the reg-name set and
    stored in the hostname region.  The source's final
    `detail::parse_hostname` call only recomputes `pt_.host`, the host-kind
    enum, which this embedding does not carry (no claim observes it). -/
def set_hostname (s : List Char) (u : Url) : Res :=
  if s = [] then .ok (resize 3 0 u)
  else
    let enc := pctEncode maskRegName s
    let u1 := resize 3 enc.length u
    .ok (u1.store (u1.off 3) enc)

/-- `detail::port_string(num)` — decimal rendering of the port number
    (fuel-based so that it reduces definitionally). -/
def natDigitsAux : Nat → Nat → List Char
  | 0, _ => []
  | fuel + 1, n =>
    if n < 10 then [Nat.digitChar n]
    else natDigitsAux fuel (n / 10) ++ [Nat.digitChar (n % 10)]

/-- Decimal digits of a number. -/
def natDigits (n : Nat) : List Char := natDigitsAux (n + 1) n

/-- `basic_value::set_port(optional<unsigned short>)`: `none` removes the
    port; a number is rendered in decimal and stored as `":<digits>"`,
    adding `"//"` and empty user/password/host regions when no authority
    exists. -/
def set_port (p : Option Nat) (u : Url) : Res :=
  match p with
  | none => .ok ((resize 4 0 u).setPortNum none)
  | some m =>
    let ds := natDigits m
    if u.lenR 1 5 = 0 then
      let u1 := resize 1 (3 + ds.length) u
      let d := u1.off 1
      let u2 := (u1.store d ['/', '/']).store (d + 2) [':']
      let u3 := ((u2.split 1 2).split 2 0).split 3 0
      .ok ((u3.store (d + 3) ds).setPortNum (some m))
    else
      let u1 := resize 4 (1 + ds.length) u
      let d := u1.off 4
      .ok (((u1.store d [':']).store (d + 1) ds).setPortNum (some m))

/-- `basic_value::set_port_string`: empty removes the port; otherwise the
    string is parsed as `port = *DIGIT` and the parsed optional numeric
    value is handed to `set_port` (so the stored text is the canonical
    decimal of the parsed number). -/
def set_port_string (s : List Char) (u : Url) : Res :=
  if s = [] then set_port none u
  else
    match parse_port s with
    | none => .err .invalidPart u
    | some p => set_port p u

/-- `basic_value::set_encoded_path`: empty removes the path; otherwise the
    string is validated as `path-abempty` — regardless of whether an
    authority is present — and stored verbatim. -/
def set_encoded_path (s : List Char) (u : Url) : Res :=
  if s = [] then .ok (resizeR 5 6 0 u)
  else if isPathAbempty s then
    let u1 := resizeR 5 6 s.length u
    .ok (u1.store (u1.off 5) s)
  else .err .invalidPart u

/-- `basic_value::set_query`: empty removes the query; otherwise one
    leading `?` is stripped, the rest is percent-encoded and stored as
    `"?<enc>"`. -/
def set_query (s : List Char) (u : Url) : Res :=
  if s = [] then .ok (resize 6 0 u)
  else
    let s' := if s.head? = some '?' then s.drop 1 else s
    let enc := pctEncode maskQuery s'
    let u1 := resize 6 (1 + enc.length) u
    .ok ((u1.store (u1.off 6) ['?']).store (u1.off 6 + 1) enc)

/-- `basic_value::set_encoded_query`: empty removes the query; otherwise
    one leading `?` is stripped, the rest validated and stored verbatim
    after `?`. -/
def set_encoded_query (s : List Char) (u : Url) : Res :=
  if s = [] then .ok (resize 6 0 u)
  else
    let s' := if s.head? = some '?' then s.drop 1 else s
    if pctValidate maskQuery s' then
      let u1 := resize 6 (1 + s'.length) u
      .ok ((u1.store (u1.off 6) ['?']).store (u1.off 6 + 1) s')
    else .err .invalidPart u

/-- `basic_value::set_fragment`: empty removes the fragment; otherwise the
    string is percent-encoded and stored as `"#<enc>"`. -/
def set_fragment (s : List Char) (u : Url) : Res :=
  if s = [] then .ok (resize 7 0 u)
  else
    let enc := pctEncode maskFrag s
    let u1 := resize 7 (1 + enc.length) u
    .ok ((u1.store (u1.off 7) ['#']).store (u1.off 7 + 1) enc)

/-- `basic_value::set_encoded_fragment`: empty removes the fragment;
    otherwise the string is validated and stored verbatim after `#`. -/
def set_encoded_fragment (s : List Char) (u : Url) : Res :=
  if s = [] then .ok (resize 7 0 u)
  else if pctValidate maskFrag s then
    let u1 := resize 7 (1 + s.length) u
    .ok ((u1.store (u1.off 7) ['#']).store (u1.off 7 + 1) s)
  else .err .invalidPart u

/-- `url::remove_user` (declared in the header): modelled from the spec —
    removing the user is clearing it, i.e. `set_username` with the empty
    string (`basic_value`'s empty-string branch implements exactly the
    documented removal behaviour). -/
def remove_user (u : Url) : Res := set_username [] u

/-! ## Read operations -/

/-- `basic_value::encoded_username`: the user region without its `"//"`
    prefix. -/
def encoded_username (u : Url) : List Char :=
  let s := u.get 1
  if s = [] then s else s.drop 2

/-- `basic_value::encoded_password`: the password region without the
    trailing `"@"` and without the leading `":"`; a region that is empty or
    the bare `"@"` gives the empty string. -/
def encoded_password (u : Url) : List Char :=
  let s := u.get 2
  if s.length ≤ 1 then []
  else
    let t := s.dropLast
    if t.head? = some ':' then t.drop 1 else t

/-- `basic_value::encoded_hostname`: the hostname region, which carries no
    delimiter of its own. -/
def encoded_hostname (u : Url) : List Char := u.get 3

/-- `basic_value::encoded_query`: the query region (including the leading
    `?`, as in the source). -/
def encoded_query (u : Url) : List Char := u.getR 6 7

/-- `basic_value::encoded_fragment`: the fragment region without the
    leading `#`. -/
def encoded_fragment (u : Url) : List Char :=
  let s := u.getR 7 8
  if s = [] then s else s.drop 1

/-- Modelled from the spec: the plain (decoded) user accessor — the
    percent-decoded encoded user. -/
def plain_user (u : Url) : List Char := pctDecode (encoded_username u)

/-- Modelled from the spec: the plain (decoded) password accessor. -/
def plain_password (u : Url) : List Char := pctDecode (encoded_password u)

/-- Modelled from the spec: the plain (decoded) hostname accessor. -/
def plain_hostname (u : Url) : List Char := pctDecode (encoded_hostname u)

/-- Modelled from the spec: the plain (decoded) query accessor — the query
    region with its `?` delimiter masked off, percent-decoded. -/
def plain_query (u : Url) : List Char :=
  let s := encoded_query u
  pctDecode (if s.head? = some '?' then s.drop 1 else s)

/-- Modelled from the spec: the plain (decoded) fragment accessor. -/
def plain_fragment (u : Url) : List Char := pctDecode (encoded_fragment u)

/-- `has_authority`: the user..port regions are non-empty (the source
    tests `pt_.length(id_username, id_path) == 0` for absence). -/
def hasAuthority (u : Url) : Bool := u.lenR 1 5 ≠ 0

/-! ## Concrete states -/

/-- The default-constructed container. -/
def emptyUrl : Url :=
  { buf := ['\x00'], tbl := [0, 0, 0, 0, 0, 0, 0, 0, 0], port := none }

/-- The container holding `http://h/`. -/
def httpH : Url :=
  { buf := "http://h/".data ++ ['\x00']
    tbl := [0, 5, 7, 7, 8, 8, 9, 9, 9]
    port := none }

/-- The container holding `http://u:p@h/`. -/
def httpUPH : Url :=
  { buf := "http://u:p@h/".data ++ ['\x00']
    tbl := [0, 5, 8, 11, 12, 12, 13, 13, 13]
    port := none }

/-- The container holding `http://u@h/`. -/
def httpUH : Url :=
  { buf := "http://u@h/".data ++ ['\x00']
    tbl := [0, 5, 8, 9, 10, 10, 11, 11, 11]
    port := none }

/-! ## Toolkit lemmas -/

theorem nth_mkTbl (f : Nat → Nat) (i : Nat) (hi : i < 9) :
    nth (mkTbl f) i = f i := by
  interval_cases i <;> rfl

theorem off_resizeR (u : Url) (first last n i : Nat) (hi : i < 9) :
    (resizeR first last n u).off i =
      if i ≤ first then u.off i
      else if i < last then u.off first + n
      else u.off i + n - u.lenR first last := by
  simp only [resizeR, Url.off]
  exact nth_mkTbl _ i hi

theorem off_split (u : Url) (id n i : Nat) (hi : i < 9) :
    (u.split id n).off i = if i = id + 1 then u.off id + n else u.off i := by
  simp only [Url.split, Url.off]
  exact nth_mkTbl _ i hi

theorem off_store (u : Url) (p : Nat) (bs : List Char) (i : Nat) :
    (u.store p bs).off i = u.off i := rfl

theorem buf_split (u : Url) (id n : Nat) : (u.split id n).buf = u.buf := rfl

theorem off_setPortNum (u : Url) (p : Option Nat) (i : Nat) :
    (u.setPortNum p).off i = u.off i := rfl

theorem buf_setPortNum (u : Url) (p : Option Nat) :
    (u.setPortNum p).buf = u.buf := rfl

theorem WF.mono {u : Url} (h : WF u) {i j : Nat} (hij : i ≤ j) (hj : j ≤ 8) :
    u.off i ≤ u.off j := by
  obtain ⟨-, -, hm, -, -⟩ := h
  obtain ⟨k, rfl⟩ := Nat.le.dest hij
  clear hij
  induction k with
  | zero => simp
  | succ k ih =>
    have h2 := hm (i + k) (by omega)
    have h3 := ih (by omega)
    show u.off i ≤ u.off (i + k + 1)
    omega

theorem WF.off_le_buf {u : Url} (h : WF u) {i : Nat} (hi : i ≤ 8) :
    u.off i ≤ u.buf.length - 1 := by
  have h1 := h.mono hi (by omega)
  have h2 := h.2.2.2.1
  omega

theorem seg_pref (P Q : List Char) (a n : Nat) (h : a + n ≤ P.length) :
    seg (P ++ Q) a n = seg P a n := by
  unfold seg
  rw [List.drop_append_eq_append_drop, List.take_append_eq_append_take]
  have h1 : a - P.length = 0 := by omega
  have h2 : n - (P.drop a).length = 0 := by
    have := List.length_drop a P
    omega
  rw [h1, h2]
  simp

theorem seg_suff (P Q : List Char) (a n : Nat) (h : P.length ≤ a) :
    seg (P ++ Q) a n = seg Q (a - P.length) n := by
  unfold seg
  rw [List.drop_append_eq_append_drop]
  have h1 : P.drop a = [] := List.drop_eq_nil_of_le h
  rw [h1]
  simp

theorem seg_zero_len (l : List Char) : seg l 0 l.length = l := by
  unfold seg
  simp

theorem seg_mid (P C S : List Char) : seg (P ++ C ++ S) P.length C.length = C := by
  rw [List.append_assoc, seg_suff P (C ++ S) P.length C.length (Nat.le_refl _),
    Nat.sub_self]
  unfold seg
  rw [List.drop_zero, List.take_append_eq_append_take, Nat.sub_self,
    List.take_length, List.take_zero, List.append_nil]

theorem seg_inside (P C S : List Char) (a n : Nat) (h : a + n ≤ C.length) :
    seg (P ++ C ++ S) (P.length + a) n = seg C a n := by
  rw [List.append_assoc, seg_suff P (C ++ S) (P.length + a) n (by omega),
    Nat.add_sub_cancel_left, seg_pref C S a n h]

theorem seg_take (l : List Char) (m a n : Nat) (h : a + n ≤ m) :
    seg (l.take m) a n = seg l a n := by
  unfold seg
  rw [List.drop_take]
  rw [List.take_take]
  congr 1
  omega

theorem length_writeB {p : Nat} {bs l : List Char} (h : p + bs.length ≤ l.length) :
    (writeB p bs l).length = l.length := by
  unfold writeB
  simp only [List.length_append, List.length_take, List.length_drop]
  omega

theorem writeB_mid (P C S bs : List Char) (a : Nat)
    (h : a + bs.length ≤ C.length) :
    writeB (P.length + a) bs (P ++ C ++ S) = P ++ writeB a bs C ++ S := by
  unfold writeB
  rw [List.append_assoc P C S, List.take_append a, Nat.add_assoc,
    List.drop_append (a + bs.length), List.take_append_eq_append_take,
    List.drop_append_eq_append_drop]
  have h5 : a - C.length = 0 := by omega
  have h6 : a + bs.length - C.length = 0 := by omega
  rw [h5, h6]
  simp

theorem take_pref_len {l : List Char} {m : Nat} (h : m ≤ l.length) :
    (l.take m).length = m := by
  simp only [List.length_take]
  omega

theorem rContent_length {u : Url} {first last : Nat} (n : Nat) (h : WF u)
    (hfl : first ≤ last) (hl : last ≤ 8) :
    (rContent u first last n).length = n := by
  have h1 : u.off first ≤ u.off last := h.mono hfl hl
  have h2 : u.off last ≤ u.buf.length - 1 := h.off_le_buf hl
  have h3 : 1 ≤ u.buf.length := by
    have := h.2.2.2.1; omega
  unfold rContent padTake
  split <;> rename_i hc <;> simp only [Url.lenR] at hc <;>
    simp only [Url.lenR, List.length_take, List.length_drop,
      List.length_append, List.length_replicate] <;>
    omega

theorem resizeR_buf (u : Url) (first last n : Nat) :
    (resizeR first last n u).buf =
      u.buf.take (u.off first) ++ rContent u first last n ++
        u.buf.drop (u.off last) := rfl

/-! ## Encode/decode round trip -/

theorem hexVal_hexDigitCh : ∀ n, n < 16 → hexVal (hexDigitCh n) = n := by decide

theorem pctDecode_cons_ne {c : Char} (X : List Char) (h : ¬ c = '%') :
    pctDecode (c :: X) = c :: pctDecode X := by
  match X with
  | [] => simp [pctDecode, h]
  | [a] => simp [pctDecode, h]
  | a :: b :: r => rw [pctDecode.eq_2, if_neg h]

theorem pctDecode_triplet (h l : Char) (rest : List Char) :
    pctDecode ('%' :: h :: l :: rest) =
      Char.ofNat (16 * hexVal h + hexVal l) :: pctDecode rest := rfl

theorem pctDecode_pctEncode (m : Char → Bool) (hm : m '%' = false) :
    ∀ v : List Char, (∀ c ∈ v, c.toNat < 256) →
      pctDecode (pctEncode m v) = v := by
  intro v
  induction v with
  | nil => intro _; rfl
  | cons c t ih =>
    intro hv
    have hc : c.toNat < 256 := hv c (by simp)
    have ht : ∀ x ∈ t, x.toNat < 256 := fun x hx => hv x (by simp [hx])
    unfold pctEncode
    by_cases h : m c = true
    · rw [if_pos h]
      have hne : ¬ c = '%' := by
        intro e
        rw [e, hm] at h
        exact Bool.false_ne_true h
      rw [List.cons_append, List.nil_append, pctDecode_cons_ne _ hne, ih ht]
    · rw [if_neg h]
      show pctDecode ('%' :: hexDigitCh (c.toNat / 16) ::
        hexDigitCh (c.toNat % 16) :: pctEncode m t) = c :: t
      rw [pctDecode_triplet]
      have h1 : hexVal (hexDigitCh (c.toNat / 16)) = c.toNat / 16 :=
        hexVal_hexDigitCh _ (by omega)
      have h2 : hexVal (hexDigitCh (c.toNat % 16)) = c.toNat % 16 :=
        hexVal_hexDigitCh _ (by omega)
      rw [h1, h2, Nat.div_add_mod, Char.ofNat_toNat, ih ht]

theorem pctEncode_ne_nil (m : Char → Bool) {c : Char} (t : List Char) :
    pctEncode m (c :: t) ≠ [] := by
  unfold pctEncode
  split <;> simp

/-! ## Error branches leave the state untouched (helpers for C3) -/

theorem st_err_set_encoded_url (s : List Char) (u : Url) (e : Err) (v : Url)
    (hE : set_encoded_url s u = .err e v) : v = u := by
  unfold set_encoded_url at hE
  repeat' (first | split at hE | simp only [] at hE)
  all_goals simp_all

theorem st_err_set_scheme (s : List Char) (u : Url) (e : Err) (v : Url)
    (hE : set_scheme s u = .err e v) : v = u := by
  unfold set_scheme at hE
  repeat' (first | split at hE | simp only [] at hE)
  all_goals simp_all

theorem st_err_set_encoded_userinfo (s : List Char) (u : Url) (e : Err) (v : Url)
    (hE : set_encoded_userinfo s u = .err e v) : v = u := by
  unfold set_encoded_userinfo at hE
  repeat' (first | split at hE | simp only [] at hE)
  all_goals simp_all

theorem st_err_set_encoded_username (s : List Char) (u : Url) (e : Err) (v : Url)
    (hE : set_encoded_username s u = .err e v) : v = u := by
  unfold set_encoded_username set_username at hE
  repeat' (first | split at hE | simp only [] at hE)
  all_goals simp_all

theorem st_err_set_encoded_password (s : List Char) (u : Url) (e : Err) (v : Url)
    (hE : set_encoded_password s u = .err e v) : v = u := by
  unfold set_encoded_password set_password at hE
  repeat' (first | split at hE | simp only [] at hE)
  all_goals simp_all

theorem st_err_set_port_string (s : List Char) (u : Url) (e : Err) (v : Url)
    (hE : set_port_string s u = .err e v) : v = u := by
  unfold set_port_string set_port at hE
  repeat' (first | split at hE | simp only [] at hE)
  all_goals simp_all

theorem st_err_set_encoded_path (s : List Char) (u : Url) (e : Err) (v : Url)
    (hE : set_encoded_path s u = .err e v) : v = u := by
  unfold set_encoded_path at hE
  repeat' (first | split at hE | simp only [] at hE)
  all_goals simp_all

theorem st_err_set_encoded_query (s : List Char) (u : Url) (e : Err) (v : Url)
    (hE : set_encoded_query s u = .err e v) : v = u := by
  unfold set_encoded_query at hE
  repeat' (first | split at hE | simp only [] at hE)
  all_goals simp_all

theorem st_err_set_encoded_fragment (s : List Char) (u : Url) (e : Err) (v : Url)
    (hE : set_encoded_fragment s u = .err e v) : v = u := by
  unfold set_encoded_fragment at hE
  repeat' (first | split at hE | simp only [] at hE)
  all_goals simp_all

theorem isOk_false_st {r : Res} {u : Url}
    (H : ∀ e v, r = .err e v → v = u) (h : r.isOk = false) : r.st = u := by
  cases r with
  | ok w => simp [Res.isOk] at h
  | err e v => exact H e v rfl

/-! ## Claims -/

/-- C1, counterexample: `set_port("0080")` on `http://h/` does *not* yield
    the URL string `http://h:0080/` — the port text is regenerated from the
    parsed number, so leading zeros are not stored verbatim. -/
theorem C1_counterexample :
    ¬ urlString (set_port_string "0080".data httpH).st = "http://h:0080/".data := by
  decide

/-- C1, amended: `set_port("0080")` on `http://h/` succeeds, yields
    `http://h:80/` with `port_number == 80` (the numeric value is parsed
    and the stored text is the canonical decimal of that number, leading
    zeros are not preserved); a port string that overflows `u16` is a soft
    error with `port_number == none`, but the port component is removed
    rather than stored verbatim. -/
theorem C1_amended :
    (set_port_string "0080".data httpH).isOk = true ∧
    urlString (set_port_string "0080".data httpH).st = "http://h:80/".data ∧
    (set_port_string "0080".data httpH).st.port = some 80 ∧
    (set_port_string "99999".data httpH).isOk = true ∧
    urlString (set_port_string "99999".data httpH).st = "http://h/".data ∧
    (set_port_string "99999".data httpH).st.port = none := by
  decide

/-- C2: on a URL with no authority, `set_encoded_path("//evil")` does not
    fail — the source validates the argument with `parse_path_abempty`
    regardless of context, `//evil` matches `path-abempty`, and the bytes
    are stored (contradicting the claim, invariant I8 and the setter's own
    documentation, which require the error `invalid_path` and an unchanged
    container). -/
theorem C2_code_accepts_double_slash_path :
    (set_encoded_path "//evil".data emptyUrl).isOk = true ∧
    urlString (set_encoded_path "//evil".data emptyUrl).st = "//evil".data := by
  decide

/-- C3: strong guarantee on input-validation errors — for every modelled
    validating setter and every input, if the operation signals an error
    then the observable container state equals the pre-call state
    (in the source every validation occurs before the first mutation). -/
theorem C3_strong_guarantee (s : List Char) (u : Url) :
    ((set_encoded_url s u).isOk = false → (set_encoded_url s u).st = u) ∧
    ((set_scheme s u).isOk = false → (set_scheme s u).st = u) ∧
    ((set_encoded_userinfo s u).isOk = false → (set_encoded_userinfo s u).st = u) ∧
    ((set_encoded_username s u).isOk = false → (set_encoded_username s u).st = u) ∧
    ((set_encoded_password s u).isOk = false → (set_encoded_password s u).st = u) ∧
    ((set_port_string s u).isOk = false → (set_port_string s u).st = u) ∧
    ((set_encoded_path s u).isOk = false → (set_encoded_path s u).st = u) ∧
    ((set_encoded_query s u).isOk = false → (set_encoded_query s u).st = u) ∧
    ((set_encoded_fragment s u).isOk = false → (set_encoded_fragment s u).st = u) :=
  ⟨isOk_false_st (st_err_set_encoded_url s u),
   isOk_false_st (st_err_set_scheme s u),
   isOk_false_st (st_err_set_encoded_userinfo s u),
   isOk_false_st (st_err_set_encoded_username s u),
   isOk_false_st (st_err_set_encoded_password s u),
   isOk_false_st (st_err_set_port_string s u),
   isOk_false_st (st_err_set_encoded_path s u),
   isOk_false_st (st_err_set_encoded_query s u),
   isOk_false_st (st_err_set_encoded_fragment s u)⟩

/-- C8: a non-empty encoded password beginning with `:` is rejected for
    every container state (the check precedes validation and any
    mutation). -/
theorem C8_encoded_password_rejects_leading_colon (s : List Char) (u : Url)
    (h1 : s ≠ []) (h2 : s.head? = some ':') :
    set_encoded_password s u = .err .invalidPart u := by
  unfold set_encoded_password
  rw [if_neg h1, if_pos h2]

/-- C8 witness. -/
theorem C8_witness :
    ":x".data ≠ [] ∧ ":x".data.head? = some ':' ∧
    set_encoded_password ":x".data emptyUrl = .err .invalidPart emptyUrl :=
  ⟨by decide, by decide,
   C8_encoded_password_rejects_leading_colon ":x".data emptyUrl
     (by decide) (by decide)⟩

/-- C10: for a non-empty digit string `s`, `set_port_string s` produces
    exactly the container state `set_port p` produces, where `p` is the
    optional numeric value parsed from `s`. -/
theorem C10_port_string_is_set_port (s : List Char) (u : Url)
    (h1 : s ≠ []) (h2 : s.all isDigitCh = true) :
    set_port_string s u = set_port (portNum s) u := by
  unfold set_port_string
  rw [if_neg h1]
  simp [parse_port, h2]

/-- C10 witness. -/
theorem C10_witness :
    "8080".data ≠ [] ∧ "8080".data.all isDigitCh = true ∧
    set_port_string "8080".data httpH = set_port (portNum "8080".data) httpH :=
  ⟨by decide, by decide,
   C10_port_string_is_set_port "8080".data httpH (by decide) (by decide)⟩

/-- C3 witness. -/
theorem C3_witness :
    (set_encoded_password [':', 'x'] emptyUrl).isOk = false ∧
    (set_encoded_password [':', 'x'] emptyUrl).st = emptyUrl :=
  ⟨by decide,
   (C3_strong_guarantee [':', 'x'] emptyUrl).2.2.2.2.1 (by decide)⟩

/-- C4: for every string that parses as a URI-reference, constructing a
    URL from it (`set_encoded_url`) succeeds and reading the full encoded
    string back gives exactly the input — the source installs the parsed
    parts table and copies the input bytes verbatim. -/
theorem C4_round_trip (s : List Char) (u : Url) (hwf : WF u) (pt : Parts)
    (hp : parse_url s = some pt) :
    (set_encoded_url s u).isOk = true ∧
    urlString (set_encoded_url s u).st = s := by
  by_cases h : s = []
  · subst h
    unfold set_encoded_url
    rw [if_pos rfl]
    refine ⟨rfl, ?_⟩
    show urlString (resizeR 0 idEnd 0 u) = []
    have h0 : u.off 0 = 0 := hwf.2.1
    have hlen : u.buf.length = u.off 8 + 1 := hwf.2.2.2.1
    unfold urlString idEnd
    rw [resizeR_buf]
    have hc : rContent u 0 8 0 = [] := by
      unfold rContent
      rw [if_pos (Nat.zero_le _)]
      simp
    rw [h0, hc]
    simp only [List.take_zero, List.nil_append]
    have hsh : (u.buf.drop (u.off 8)).length ≤ 1 := by
      rw [List.length_drop]
      omega
    cases hD : u.buf.drop (u.off 8) with
    | nil => rfl
    | cons a t =>
      rw [hD] at hsh
      cases t with
      | nil => rfl
      | cons b r => simp at hsh
  · unfold set_encoded_url
    rw [if_neg h, hp]
    refine ⟨rfl, ?_⟩
    show (s ++ ['\x00']).dropLast = s
    simp

/-- C4 witness. -/
theorem C4_witness :
    WF emptyUrl ∧
    parse_url "http://u:p@h:8080/a/b?x=1#f".data =
      some { tbl := [0, 5, 8, 11, 12, 17, 21, 25, 27], port := some 8080 } ∧
    (set_encoded_url "http://u:p@h:8080/a/b?x=1#f".data emptyUrl).isOk = true ∧
    urlString (set_encoded_url "http://u:p@h:8080/a/b?x=1#f".data emptyUrl).st =
      "http://u:p@h:8080/a/b?x=1#f".data :=
  ⟨by decide, by decide,
   C4_round_trip "http://u:p@h:8080/a/b?x=1#f".data emptyUrl (by decide)
     { tbl := [0, 5, 8, 11, 12, 17, 21, 25, 27], port := some 8080 } (by decide)⟩

theorem seg_drop (l : List Char) (x a n : Nat) :
    seg (l.drop x) a n = seg l (a + x) n := by
  unfold seg
  rw [List.drop_drop]
  rw [Nat.add_comm x a]

/-- C9: the single-component `resize(id, n)` leaves the offsets of
    components at or before `id` unchanged, shifts every later offset by
    exactly `n` minus the component's old length, preserves the bytes of
    every other component, and shifts the suffix — including the trailing
    NUL — intact. -/
theorem C9_resize_frame (u : Url) (id n : Nat) (hwf : WF u) (hid : id < 8) :
    (∀ j, j ≤ id → (resize id n u).off j = u.off j) ∧
    (∀ j, id < j → j ≤ 8 →
      (resize id n u).off j + u.len id = u.off j + n) ∧
    (∀ j, j < 8 → j ≠ id → (resize id n u).get j = u.get j) ∧
    (resize id n u).buf.drop ((resize id n u).off (id + 1)) =
      u.buf.drop (u.off (id + 1)) := by
  have hmono : ∀ i j, i ≤ j → j ≤ 8 → u.off i ≤ u.off j :=
    fun i j hij hj => hwf.mono hij hj
  have hlen : u.buf.length = u.off 8 + 1 := hwf.2.2.2.1
  have hoff : ∀ i, i < 9 → (resize id n u).off i =
      if i ≤ id then u.off i else u.off i + n - u.len id := by
    intro i hi
    unfold resize
    rw [off_resizeR u id (id + 1) n i hi]
    rcases Nat.lt_trichotomy i (id + 1) with hlt | heq | hgt
    · have hle : i ≤ id := by omega
      rw [if_pos hle, if_pos hle]
    · subst heq
      rw [if_neg (by omega), if_neg (by omega), if_neg (by omega)]
      have := hmono id (id + 1) (by omega) (by omega)
      unfold Url.lenR Url.len
      omega
    · rw [if_neg (by omega), if_neg (by omega), if_neg (by omega)]
      rfl
  have hP : (u.buf.take (u.off id)).length = u.off id := by
    apply take_pref_len
    have := hmono id 8 (by omega) (by omega)
    omega
  have hC : (rContent u id (id + 1) n).length = n :=
    rContent_length n hwf (by omega) (by omega)
  have hbuf : (resize id n u).buf =
      u.buf.take (u.off id) ++ rContent u id (id + 1) n ++
        u.buf.drop (u.off (id + 1)) := resizeR_buf u id (id + 1) n
  refine ⟨?_, ?_, ?_, ?_⟩
  · intro j hj
    rw [hoff j (by omega), if_pos hj]
  · intro j h1 h2
    rw [hoff j (by omega), if_neg (by omega)]
    have ha := hmono (id + 1) j (by omega) h2
    have hb := hmono id (id + 1) (by omega) (by omega)
    unfold Url.len
    omega
  · intro j hj hne
    rcases Nat.lt_or_ge j id with hlt | hge
    · -- j before id: inside the preserved prefix
      have e1 : (resize id n u).off j = u.off j := by
        rw [hoff j (by omega), if_pos (by omega)]
      have e2 : (resize id n u).off (j + 1) = u.off (j + 1) := by
        rw [hoff (j + 1) (by omega), if_pos (by omega)]
      unfold Url.get Url.len
      rw [e1, e2, hbuf]
      have hj1 : u.off j + (u.off (j + 1) - u.off j) ≤ u.off id := by
        have := hmono j (j + 1) (by omega) (by omega)
        have := hmono (j + 1) id (by omega) (by omega)
        omega
      have hPC : u.off j + (u.off (j + 1) - u.off j) ≤
          (u.buf.take (u.off id) ++ rContent u id (id + 1) n).length := by
        rw [List.length_append, hP, hC]
        omega
      have s1 := seg_pref (u.buf.take (u.off id) ++ rContent u id (id + 1) n)
        (u.buf.drop (u.off (id + 1))) (u.off j) (u.off (j + 1) - u.off j) hPC
      have s2 := seg_pref (u.buf.take (u.off id)) (rContent u id (id + 1) n)
        (u.off j) (u.off (j + 1) - u.off j) (by rw [hP]; exact hj1)
      have s3 := seg_take u.buf (u.off id) (u.off j)
        (u.off (j + 1) - u.off j) hj1
      exact s1.trans (s2.trans s3)
    · -- j after id: inside the shifted suffix
      have hgt : id < j := by omega
      have e1 : (resize id n u).off j = u.off j + n - u.len id := by
        rw [hoff j (by omega), if_neg (by omega)]
      have e2 : (resize id n u).off (j + 1) = u.off (j + 1) + n - u.len id := by
        rw [hoff (j + 1) (by omega), if_neg (by omega)]
      have ha := hmono (id + 1) j (by omega) (by omega)
      have hb := hmono id (id + 1) (by omega) (by omega)
      have hcc := hmono j (j + 1) (by omega) (by omega)
      unfold Url.get Url.len
      rw [e1, e2, hbuf]
      have hL : u.len id = u.off (id + 1) - u.off id := rfl
      have hlen_eq : u.off (j + 1) + n - u.len id - (u.off j + n - u.len id) =
          u.off (j + 1) - u.off j := by
        rw [hL]
        omega
      rw [hlen_eq]
      have hpos : u.off j + n - u.len id =
          (u.buf.take (u.off id) ++ rContent u id (id + 1) n).length +
            (u.off j - u.off (id + 1)) := by
        rw [List.length_append, hP, hC, hL]
        omega
      rw [hpos]
      have s1 := seg_suff (u.buf.take (u.off id) ++ rContent u id (id + 1) n)
        (u.buf.drop (u.off (id + 1)))
        ((u.buf.take (u.off id) ++ rContent u id (id + 1) n).length +
          (u.off j - u.off (id + 1)))
        (u.off (j + 1) - u.off j) (by omega)
      rw [s1, Nat.add_sub_cancel_left, seg_drop]
      have harg : u.off j - u.off (id + 1) + u.off (id + 1) = u.off j := by
        omega
      rw [harg]
  · rw [hbuf, hoff (id + 1) (by omega), if_neg (by omega)]
    have hb := hmono id (id + 1) (by omega) (by omega)
    have e : u.off (id + 1) + n - u.len id =
        (u.buf.take (u.off id) ++ rContent u id (id + 1) n).length := by
      rw [List.length_append, hP, hC]
      unfold Url.len
      omega
    rw [e, List.drop_left]

/-- C9 witness. -/
theorem C9_witness :
    WF httpUPH ∧ (3 : Nat) < 8 ∧
    (resize 3 5 httpUPH).off 2 = httpUPH.off 2 ∧
    (resize 3 5 httpUPH).off 5 + httpUPH.len 3 = httpUPH.off 5 + 5 ∧
    (resize 3 5 httpUPH).get 5 = httpUPH.get 5 ∧
    (resize 3 5 httpUPH).buf.drop ((resize 3 5 httpUPH).off 4) =
      httpUPH.buf.drop (httpUPH.off 4) :=
  ⟨by decide, by decide,
   (C9_resize_frame httpUPH 3 5 (by decide) (by decide)).1 2 (by decide),
   (C9_resize_frame httpUPH 3 5 (by decide) (by decide)).2.1 5 (by decide)
     (by decide),
   (C9_resize_frame httpUPH 3 5 (by decide) (by decide)).2.2.1 5 (by decide)
     (by decide),
   (C9_resize_frame httpUPH 3 5 (by decide) (by decide)).2.2.2⟩

/-! ## Collapsing the write sequences of the setters -/

theorem wseq_delim (C : List Char) (c0 : Char) (y : List Char)
    (hC : C.length = y.length + 1) :
    writeB 1 y (writeB 0 [c0] C) = c0 :: y := by
  have h1 : writeB 0 [c0] C = c0 :: C.drop 1 := by
    simp [writeB]
  rw [h1]
  unfold writeB
  have e2 : (c0 :: C.drop 1).drop (1 + y.length) = [] := by
    apply List.drop_eq_nil_of_le
    simp only [List.length_cons, List.length_drop]
    omega
  rw [e2]
  simp

theorem wseq_at2 (C y : List Char) (hC : C.length = y.length + 2) :
    writeB 2 y C = C.take 2 ++ y := by
  unfold writeB
  have e : C.drop (2 + y.length) = [] := by
    apply List.drop_eq_nil_of_le
    omega
  rw [e]
  simp

theorem drop_len_append (T Y : List Char) (k : Nat) (h : T.length = k) :
    (T ++ Y).drop k = Y := by
  rw [← h]
  exact List.drop_left T Y

theorem wseq_user (C y : List Char) (hC : C.length = y.length + 3) :
    writeB 2 y (writeB (2 + y.length) ['@'] (writeB 0 ['/', '/'] C)) =
      '/' :: '/' :: (y ++ ['@']) := by
  have h1 : writeB 0 ['/', '/'] C = '/' :: '/' :: C.drop 2 := by
    simp [writeB]
  rw [h1]
  have h2 : writeB (2 + y.length) ['@'] ('/' :: '/' :: C.drop 2) =
      ('/' :: '/' :: C.drop 2).take (2 + y.length) ++ ['@'] := by
    unfold writeB
    have e : ('/' :: '/' :: C.drop 2).drop (2 + y.length + ['@'].length) =
        [] := by
      apply List.drop_eq_nil_of_le
      simp only [List.length_cons, List.length_nil, List.length_drop]
      omega
    rw [e]
    simp
  rw [h2]
  unfold writeB
  have hT : (('/' :: '/' :: C.drop 2).take (2 + y.length)).length =
      2 + y.length := by
    rw [take_pref_len]
    simp only [List.length_cons, List.length_drop]
    omega
  have e1 : ((('/' :: '/' :: C.drop 2).take (2 + y.length)) ++ ['@']).take 2 =
      ['/', '/'] := by
    rw [List.take_append_eq_append_take, hT]
    have e : (2 : Nat) - (2 + y.length) = 0 := by omega
    rw [e, List.take_zero, List.append_nil]
    rw [List.take_take]
    have e' : min 2 (2 + y.length) = 2 := by omega
    rw [e']
    rfl
  rw [e1, drop_len_append (('/' :: '/' :: C.drop 2).take (2 + y.length))
    ['@'] (2 + y.length) hT]
  simp

theorem wseq_pass (C y : List Char) (hC : C.length = y.length + 2) :
    writeB 1 y (writeB (y.length + 1) ['@'] (writeB 0 [':'] C)) =
      ':' :: (y ++ ['@']) := by
  have h1 : writeB 0 [':'] C = ':' :: C.drop 1 := by
    simp [writeB]
  rw [h1]
  have h2 : writeB (y.length + 1) ['@'] (':' :: C.drop 1) =
      (':' :: C.drop 1).take (y.length + 1) ++ ['@'] := by
    unfold writeB
    have e : (':' :: C.drop 1).drop (y.length + 1 + ['@'].length) = [] := by
      apply List.drop_eq_nil_of_le
      simp only [List.length_cons, List.length_nil, List.length_drop]
      omega
    rw [e]
    simp
  rw [h2]
  unfold writeB
  have hT : ((':' :: C.drop 1).take (y.length + 1)).length = y.length + 1 := by
    rw [take_pref_len]
    simp only [List.length_cons, List.length_drop]
    omega
  have e1 : (((':' :: C.drop 1).take (y.length + 1)) ++ ['@']).take 1 =
      [':'] := by
    rw [List.take_append_eq_append_take, hT]
    have e : (1 : Nat) - (y.length + 1) = 0 := by omega
    rw [e, List.take_zero, List.append_nil]
    rw [List.take_take]
    have e' : min 1 (y.length + 1) = 1 := by omega
    rw [e']
    rfl
  rw [e1, drop_len_append ((':' :: C.drop 1).take (y.length + 1)) ['@']
    (1 + y.length) (hT.trans (by omega))]
  simp

theorem wseq_pass2 (C y : List Char) (hC : C.length = y.length + 4) :
    writeB 3 y (writeB (2 + y.length + 1) ['@'] (writeB 2 [':']
      (writeB 0 ['/', '/'] C))) = '/' :: '/' :: ':' :: (y ++ ['@']) := by
  have h1 : writeB 0 ['/', '/'] C = '/' :: '/' :: C.drop 2 := by
    simp [writeB]
  rw [h1]
  have h2 : writeB 2 [':'] ('/' :: '/' :: C.drop 2) =
      '/' :: '/' :: ':' :: C.drop 3 := by
    unfold writeB
    show ('/' :: '/' :: C.drop 2).take 2 ++ [':'] ++
      ('/' :: '/' :: C.drop 2).drop (2 + [':'].length) = _
    have e1 : ('/' :: '/' :: C.drop 2).take 2 = ['/', '/'] := rfl
    have e2 : ('/' :: '/' :: C.drop 2).drop (2 + [':'].length) = C.drop 3 := by
      show (C.drop 2).drop 1 = C.drop 3
      rw [List.drop_drop]
    rw [e1, e2]
    rfl
  rw [h2]
  have h3 : writeB (2 + y.length + 1) ['@'] ('/' :: '/' :: ':' :: C.drop 3) =
      ('/' :: '/' :: ':' :: C.drop 3).take (2 + y.length + 1) ++ ['@'] := by
    unfold writeB
    have e : ('/' :: '/' :: ':' :: C.drop 3).drop
        (2 + y.length + 1 + ['@'].length) = [] := by
      apply List.drop_eq_nil_of_le
      simp only [List.length_cons, List.length_nil, List.length_drop]
      omega
    rw [e]
    simp
  rw [h3]
  unfold writeB
  have hT : (('/' :: '/' :: ':' :: C.drop 3).take (2 + y.length + 1)).length =
      2 + y.length + 1 := by
    rw [take_pref_len]
    simp only [List.length_cons, List.length_drop]
    omega
  have e1 : ((('/' :: '/' :: ':' :: C.drop 3).take (2 + y.length + 1)) ++
      ['@']).take 3 = ['/', '/', ':'] := by
    rw [List.take_append_eq_append_take, hT]
    have e : (3 : Nat) - (2 + y.length + 1) = 0 := by omega
    rw [e, List.take_zero, List.append_nil]
    rw [List.take_take]
    have e' : min 3 (2 + y.length + 1) = 3 := by omega
    rw [e']
    rfl
  rw [e1, drop_len_append (('/' :: '/' :: ':' :: C.drop 3).take
    (2 + y.length + 1)) ['@'] (3 + y.length) (hT.trans (by omega))]
  simp

/-! ## Region contents after the setters -/

theorem resize_store2_region (u : Url) (hwf : WF u) (id : Nat) (hid : id < 8)
    (c0 : Char) (E : List Char) :
    (((resize id (1 + E.length) u).store
        ((resize id (1 + E.length) u).off id) [c0]).store
      ((resize id (1 + E.length) u).off id + 1) E).buf =
      u.buf.take (u.off id) ++ (c0 :: E) ++
        u.buf.drop (u.off (id + 1)) ∧
    (resize id (1 + E.length) u).off id = u.off id ∧
    (resize id (1 + E.length) u).off (id + 1) =
      u.off (id + 1) + (1 + E.length) - u.len id := by
  have hmono : u.off id ≤ u.off (id + 1) := hwf.2.2.1 id hid
  have hle : u.off (id + 1) ≤ u.buf.length - 1 := hwf.off_le_buf (by omega)
  have hb1 : 1 ≤ u.buf.length := by
    have := hwf.2.2.2.1
    omega
  have hoffid : (resize id (1 + E.length) u).off id = u.off id := by
    unfold resize
    rw [off_resizeR u id (id + 1) (1 + E.length) id (by omega),
      if_pos (Nat.le_refl id)]
  have hoffid1 : (resize id (1 + E.length) u).off (id + 1) =
      u.off (id + 1) + (1 + E.length) - u.lenR id (id + 1) := by
    unfold resize
    rw [off_resizeR u id (id + 1) (1 + E.length) (id + 1) (by omega),
      if_neg (by omega), if_neg (by omega)]
  have hP : (u.buf.take (u.off id)).length = u.off id :=
    take_pref_len (by omega)
  have hC : (rContent u id (id + 1) (1 + E.length)).length = 1 + E.length :=
    rContent_length _ hwf (by omega) (by omega)
  refine ⟨?_, hoffid, hoffid1⟩
  have hbufR : (resize id (1 + E.length) u).buf =
      u.buf.take (u.off id) ++ rContent u id (id + 1) (1 + E.length) ++
        u.buf.drop (u.off (id + 1)) := resizeR_buf u id (id + 1) (1 + E.length)
  have w1 : writeB (u.off id) [c0]
      (u.buf.take (u.off id) ++ rContent u id (id + 1) (1 + E.length) ++
        u.buf.drop (u.off (id + 1))) =
      u.buf.take (u.off id) ++
        writeB 0 [c0] (rContent u id (id + 1) (1 + E.length)) ++
        u.buf.drop (u.off (id + 1)) := by
    have t := writeB_mid (u.buf.take (u.off id))
      (rContent u id (id + 1) (1 + E.length))
      (u.buf.drop (u.off (id + 1))) [c0] 0
      (by simp only [List.length_cons, List.length_nil, hC]; omega)
    rw [Nat.add_zero, hP] at t
    exact t
  have hlen0 : (writeB 0 [c0] (rContent u id (id + 1) (1 + E.length))).length =
      1 + E.length := by
    have hb : 0 + [c0].length ≤
        (rContent u id (id + 1) (1 + E.length)).length := by
      simp only [List.length_cons, List.length_nil, hC]
      omega
    rw [length_writeB hb, hC]
  have w2 : writeB (u.off id + 1) E
      (u.buf.take (u.off id) ++
        writeB 0 [c0] (rContent u id (id + 1) (1 + E.length)) ++
        u.buf.drop (u.off (id + 1))) =
      u.buf.take (u.off id) ++
        writeB 1 E (writeB 0 [c0] (rContent u id (id + 1) (1 + E.length))) ++
        u.buf.drop (u.off (id + 1)) := by
    have t := writeB_mid (u.buf.take (u.off id))
      (writeB 0 [c0] (rContent u id (id + 1) (1 + E.length)))
      (u.buf.drop (u.off (id + 1))) E 1 (le_of_eq hlen0.symm)
    rw [hP] at t
    exact t
  have inner : writeB 1 E (writeB 0 [c0]
      (rContent u id (id + 1) (1 + E.length))) = c0 :: E :=
    wseq_delim (rContent u id (id + 1) (1 + E.length)) c0 E (by omega)
  show writeB ((resize id (1 + E.length) u).off id + 1) E
      (writeB ((resize id (1 + E.length) u).off id) [c0]
        (resize id (1 + E.length) u).buf) = _
  rw [hoffid, hbufR, w1, w2, inner]

theorem seg_len_le (l : List Char) (a n : Nat) : (seg l a n).length ≤ n := by
  unfold seg
  simp only [List.length_take]
  omega

theorem resize_store1_region (u : Url) (hwf : WF u) (id : Nat) (hid : id < 8)
    (E : List Char) :
    ((resize id E.length u).store
        ((resize id E.length u).off id) E).buf =
      u.buf.take (u.off id) ++ E ++ u.buf.drop (u.off (id + 1)) ∧
    (resize id E.length u).off id = u.off id ∧
    (resize id E.length u).off (id + 1) =
      u.off (id + 1) + E.length - u.len id := by
  have hmono : u.off id ≤ u.off (id + 1) := hwf.2.2.1 id hid
  have hle : u.off (id + 1) ≤ u.buf.length - 1 := hwf.off_le_buf (by omega)
  have hb1 : 1 ≤ u.buf.length := by
    have := hwf.2.2.2.1
    omega
  have hoffid : (resize id E.length u).off id = u.off id := by
    unfold resize
    rw [off_resizeR u id (id + 1) E.length id (by omega),
      if_pos (Nat.le_refl id)]
  have hoffid1 : (resize id E.length u).off (id + 1) =
      u.off (id + 1) + E.length - u.lenR id (id + 1) := by
    unfold resize
    rw [off_resizeR u id (id + 1) E.length (id + 1) (by omega),
      if_neg (by omega), if_neg (by omega)]
  have hP : (u.buf.take (u.off id)).length = u.off id :=
    take_pref_len (by omega)
  have hC : (rContent u id (id + 1) E.length).length = E.length :=
    rContent_length _ hwf (by omega) (by omega)
  refine ⟨?_, hoffid, hoffid1⟩
  have hbufR : (resize id E.length u).buf =
      u.buf.take (u.off id) ++ rContent u id (id + 1) E.length ++
        u.buf.drop (u.off (id + 1)) := resizeR_buf u id (id + 1) E.length
  have w1 : writeB (u.off id) E
      (u.buf.take (u.off id) ++ rContent u id (id + 1) E.length ++
        u.buf.drop (u.off (id + 1))) =
      u.buf.take (u.off id) ++
        writeB 0 E (rContent u id (id + 1) E.length) ++
        u.buf.drop (u.off (id + 1)) := by
    have t := writeB_mid (u.buf.take (u.off id))
      (rContent u id (id + 1) E.length)
      (u.buf.drop (u.off (id + 1))) E 0 (by omega)
    rw [Nat.add_zero, hP] at t
    exact t
  have inner : writeB 0 E (rContent u id (id + 1) E.length) = E := by
    unfold writeB
    simp only [List.take_zero, List.nil_append, Nat.zero_add]
    rw [List.drop_eq_nil_of_le (le_of_eq hC), List.append_nil]
  show writeB ((resize id E.length u).off id) E (resize id E.length u).buf = _
  rw [hoffid, hbufR, w1, inner]

theorem set_hostname_region (u : Url) (hwf : WF u) (s : List Char)
    (hs : ¬ s = []) :
    (set_hostname s u).isOk = true ∧
    (set_hostname s u).st.get 3 = pctEncode maskRegName s := by
  unfold set_hostname
  rw [if_neg hs]
  refine ⟨rfl, ?_⟩
  obtain ⟨hbufV, h3, h4⟩ := resize_store1_region u hwf 3 (by omega)
    (pctEncode maskRegName s)
  have hmono : u.off 3 ≤ u.off 4 := hwf.2.2.1 3 (by omega)
  have hle : u.off 4 ≤ u.buf.length - 1 := hwf.off_le_buf (by omega)
  have hP : (u.buf.take (u.off 3)).length = u.off 3 := take_pref_len (by omega)
  show ((resize 3 (pctEncode maskRegName s).length u).store
      ((resize 3 (pctEncode maskRegName s).length u).off 3)
      (pctEncode maskRegName s)).get 3 = _
  unfold Url.get Url.len
  simp only [off_store]
  rw [show (3 : Nat) + 1 = 4 from by norm_num] at hbufV h4 ⊢
  rw [hbufV, h3, h4]
  have hn : u.off 4 + (pctEncode maskRegName s).length - u.len 3 - u.off 3 =
      (pctEncode maskRegName s).length := by
    unfold Url.len
    rw [show (3 : Nat) + 1 = 4 from by norm_num]
    omega
  rw [hn]
  have smid := seg_mid (u.buf.take (u.off 3)) (pctEncode maskRegName s)
    (u.buf.drop (u.off 4))
  rw [hP] at smid
  exact smid

theorem set_query_region (u : Url) (hwf : WF u) (s : List Char)
    (hs : ¬ s = []) :
    (set_query s u).isOk = true ∧
    (set_query s u).st.getR 6 7 =
      '?' :: pctEncode maskQuery (if s.head? = some '?' then s.drop 1 else s) := by
  unfold set_query
  rw [if_neg hs]
  refine ⟨rfl, ?_⟩
  obtain ⟨hbufV, h6, h7⟩ := resize_store2_region u hwf 6 (by omega) '?'
    (pctEncode maskQuery (if s.head? = some '?' then s.drop 1 else s))
  have hmono : u.off 6 ≤ u.off 7 := hwf.2.2.1 6 (by omega)
  have hle : u.off 7 ≤ u.buf.length - 1 := hwf.off_le_buf (by omega)
  have hP : (u.buf.take (u.off 6)).length = u.off 6 := take_pref_len (by omega)
  show (((resize 6 (1 + (pctEncode maskQuery
      (if s.head? = some '?' then s.drop 1 else s)).length) u).store
        ((resize 6 (1 + (pctEncode maskQuery
          (if s.head? = some '?' then s.drop 1 else s)).length) u).off 6)
        ['?']).store
      ((resize 6 (1 + (pctEncode maskQuery
        (if s.head? = some '?' then s.drop 1 else s)).length) u).off 6 + 1)
      (pctEncode maskQuery (if s.head? = some '?' then s.drop 1 else s))).getR
      6 7 = _
  unfold Url.getR Url.lenR
  simp only [off_store]
  rw [show (6 : Nat) + 1 = 7 from by norm_num] at hbufV h7
  rw [hbufV, h6, h7]
  have hn : u.off 7 + (1 + (pctEncode maskQuery
      (if s.head? = some '?' then s.drop 1 else s)).length) - u.len 6 -
      u.off 6 = 1 + (pctEncode maskQuery
        (if s.head? = some '?' then s.drop 1 else s)).length := by
    unfold Url.len
    rw [show (6 : Nat) + 1 = 7 from by norm_num]
    omega
  rw [hn]
  have smid := seg_mid (u.buf.take (u.off 6))
    ('?' :: pctEncode maskQuery (if s.head? = some '?' then s.drop 1 else s))
    (u.buf.drop (u.off 7))
  rw [hP] at smid
  have hlen : ('?' :: pctEncode maskQuery
      (if s.head? = some '?' then s.drop 1 else s)).length =
      1 + (pctEncode maskQuery
        (if s.head? = some '?' then s.drop 1 else s)).length := by
    simp [Nat.add_comm]
  rw [hlen] at smid
  exact smid

theorem set_fragment_region (u : Url) (hwf : WF u) (s : List Char)
    (hs : ¬ s = []) :
    (set_fragment s u).isOk = true ∧
    (set_fragment s u).st.getR 7 8 = '#' :: pctEncode maskFrag s := by
  unfold set_fragment
  rw [if_neg hs]
  refine ⟨rfl, ?_⟩
  obtain ⟨hbufV, h7, h8⟩ := resize_store2_region u hwf 7 (by omega) '#'
    (pctEncode maskFrag s)
  have hmono : u.off 7 ≤ u.off 8 := hwf.2.2.1 7 (by omega)
  have hle : u.off 8 ≤ u.buf.length - 1 := hwf.off_le_buf (by omega)
  have hP : (u.buf.take (u.off 7)).length = u.off 7 := take_pref_len (by omega)
  show (((resize 7 (1 + (pctEncode maskFrag s).length) u).store
        ((resize 7 (1 + (pctEncode maskFrag s).length) u).off 7) ['#']).store
      ((resize 7 (1 + (pctEncode maskFrag s).length) u).off 7 + 1)
      (pctEncode maskFrag s)).getR 7 8 = _
  unfold Url.getR Url.lenR
  simp only [off_store]
  rw [show (7 : Nat) + 1 = 8 from by norm_num] at hbufV h8
  rw [hbufV, h7, h8]
  have hn : u.off 8 + (1 + (pctEncode maskFrag s).length) - u.len 7 -
      u.off 7 = 1 + (pctEncode maskFrag s).length := by
    unfold Url.len
    rw [show (7 : Nat) + 1 = 8 from by norm_num]
    omega
  rw [hn]
  have smid := seg_mid (u.buf.take (u.off 7)) ('#' :: pctEncode maskFrag s)
    (u.buf.drop (u.off 8))
  rw [hP] at smid
  have hlen : ('#' :: pctEncode maskFrag s).length =
      1 + (pctEncode maskFrag s).length := by
    simp [Nat.add_comm]
  rw [hlen] at smid
  exact smid

theorem set_username_pos (u : Url) (hwf : WF u) (s : List Char)
    (hs : ¬ s = []) :
    (set_username s u).isOk = true ∧
    ∃ A : List Char, A.length = 2 ∧
      (set_username s u).st.get 1 = A ++ pctEncode maskUserinfoNC s := by
  have hmono12 : u.off 1 ≤ u.off 2 := hwf.2.2.1 1 (by omega)
  have hmono23 : u.off 2 ≤ u.off 3 := hwf.2.2.1 2 (by omega)
  have hle3 : u.off 3 ≤ u.buf.length - 1 := hwf.off_le_buf (by omega)
  have hb1 : 1 ≤ u.buf.length := by
    have := hwf.2.2.2.1
    omega
  have hP : (u.buf.take (u.off 1)).length = u.off 1 := take_pref_len (by omega)
  unfold set_username
  rw [if_neg hs]
  by_cases h2 : u.len 2 ≠ 0
  · rw [if_pos h2]
    refine ⟨rfl, ⟨(rContent u 1 (1 + 1)
      (2 + (pctEncode maskUserinfoNC s).length)).take 2, ?_, ?_⟩⟩
    · have hC : (rContent u 1 (1 + 1)
          (2 + (pctEncode maskUserinfoNC s).length)).length =
          2 + (pctEncode maskUserinfoNC s).length :=
        rContent_length _ hwf (by omega) (by omega)
      rw [take_pref_len (by omega)]
    · have hC : (rContent u 1 (1 + 1)
          (2 + (pctEncode maskUserinfoNC s).length)).length =
          2 + (pctEncode maskUserinfoNC s).length :=
        rContent_length _ hwf (by omega) (by omega)
      have ho1 : (resize 1 (2 + (pctEncode maskUserinfoNC s).length) u).off 1 =
          u.off 1 := by
        unfold resize
        rw [off_resizeR u 1 (1 + 1) _ 1 (by omega), if_pos (by omega)]
      have ho2 : (resize 1 (2 + (pctEncode maskUserinfoNC s).length) u).off 2 =
          u.off 2 + (2 + (pctEncode maskUserinfoNC s).length) -
            u.lenR 1 (1 + 1) := by
        unfold resize
        rw [off_resizeR u 1 (1 + 1) _ 2 (by omega), if_neg (by omega),
          if_neg (by omega)]
      have hbufR : (resize 1 (2 + (pctEncode maskUserinfoNC s).length) u).buf =
          u.buf.take (u.off 1) ++
            rContent u 1 (1 + 1) (2 + (pctEncode maskUserinfoNC s).length) ++
            u.buf.drop (u.off 2) := by
        have t := resizeR_buf u 1 (1 + 1)
          (2 + (pctEncode maskUserinfoNC s).length)
        rw [show (1 : Nat) + 1 = 2 from by norm_num] at t
        exact t
      show seg (((resize 1 (2 + (pctEncode maskUserinfoNC s).length) u).store
          ((resize 1 (2 + (pctEncode maskUserinfoNC s).length) u).off 1 + 2)
          (pctEncode maskUserinfoNC s)).buf)
        (((resize 1 (2 + (pctEncode maskUserinfoNC s).length) u).store
          ((resize 1 (2 + (pctEncode maskUserinfoNC s).length) u).off 1 + 2)
          (pctEncode maskUserinfoNC s)).off 1)
        ((((resize 1 (2 + (pctEncode maskUserinfoNC s).length) u).store
          ((resize 1 (2 + (pctEncode maskUserinfoNC s).length) u).off 1 + 2)
          (pctEncode maskUserinfoNC s)).off 2) -
         (((resize 1 (2 + (pctEncode maskUserinfoNC s).length) u).store
          ((resize 1 (2 + (pctEncode maskUserinfoNC s).length) u).off 1 + 2)
          (pctEncode maskUserinfoNC s)).off 1)) = _
      have hvb : (((resize 1 (2 + (pctEncode maskUserinfoNC s).length) u).store
          ((resize 1 (2 + (pctEncode maskUserinfoNC s).length) u).off 1 + 2)
          (pctEncode maskUserinfoNC s)).buf) =
          u.buf.take (u.off 1) ++
            ((rContent u 1 (1 + 1)
              (2 + (pctEncode maskUserinfoNC s).length)).take 2 ++
             pctEncode maskUserinfoNC s) ++
            u.buf.drop (u.off 2) := by
        show writeB ((resize 1 (2 + (pctEncode maskUserinfoNC s).length)
            u).off 1 + 2) (pctEncode maskUserinfoNC s)
          (resize 1 (2 + (pctEncode maskUserinfoNC s).length) u).buf = _
        rw [ho1, hbufR]
        have t := writeB_mid (u.buf.take (u.off 1))
          (rContent u 1 (1 + 1) (2 + (pctEncode maskUserinfoNC s).length))
          (u.buf.drop (u.off 2)) (pctEncode maskUserinfoNC s) 2 (by omega)
        rw [hP] at t
        rw [t, wseq_at2 _ _ (by omega)]
      rw [hvb]
      simp only [off_store]
      rw [ho1, ho2]
      have hn : u.off 2 + (2 + (pctEncode maskUserinfoNC s).length) -
          u.lenR 1 (1 + 1) - u.off 1 =
          2 + (pctEncode maskUserinfoNC s).length := by
        unfold Url.lenR
        rw [show (1 : Nat) + 1 = 2 from by norm_num]
        omega
      rw [hn]
      have smid := seg_mid (u.buf.take (u.off 1))
        ((rContent u 1 (1 + 1)
          (2 + (pctEncode maskUserinfoNC s).length)).take 2 ++
         pctEncode maskUserinfoNC s)
        (u.buf.drop (u.off 2))
      rw [hP] at smid
      have hlen : ((rContent u 1 (1 + 1)
          (2 + (pctEncode maskUserinfoNC s).length)).take 2 ++
          pctEncode maskUserinfoNC s).length =
          2 + (pctEncode maskUserinfoNC s).length := by
        rw [List.length_append, take_pref_len (by omega)]
      rw [hlen] at smid
      exact smid
  · rw [if_neg h2]
    refine ⟨rfl, ⟨['/', '/'], rfl, ?_⟩⟩
    have hC : (rContent u 1 (1 + 1)
        (2 + (pctEncode maskUserinfoNC s).length + 1)).length =
        2 + (pctEncode maskUserinfoNC s).length + 1 :=
      rContent_length _ hwf (by omega) (by omega)
    have ho1 : (resize 1 (2 + (pctEncode maskUserinfoNC s).length + 1)
        u).off 1 = u.off 1 := by
      unfold resize
      rw [off_resizeR u 1 (1 + 1) _ 1 (by omega), if_pos (by omega)]
    have hbufR : (resize 1 (2 + (pctEncode maskUserinfoNC s).length + 1)
        u).buf = u.buf.take (u.off 1) ++
          rContent u 1 (1 + 1)
            (2 + (pctEncode maskUserinfoNC s).length + 1) ++
          u.buf.drop (u.off 2) := by
      have t := resizeR_buf u 1 (1 + 1)
        (2 + (pctEncode maskUserinfoNC s).length + 1)
      rw [show (1 : Nat) + 1 = 2 from by norm_num] at t
      exact t
    have hL1 : (writeB 0 ['/', '/'] (rContent u 1 (1 + 1)
        (2 + (pctEncode maskUserinfoNC s).length + 1))).length =
        2 + (pctEncode maskUserinfoNC s).length + 1 := by
      have hb : 0 + (['/', '/'] : List Char).length ≤
          (rContent u 1 (1 + 1)
            (2 + (pctEncode maskUserinfoNC s).length + 1)).length := by
        simp only [List.length_cons, List.length_nil, hC]
        omega
      rw [length_writeB hb, hC]
    have hvb : ((((((resize 1 (2 + (pctEncode maskUserinfoNC s).length + 1)
        u).store ((resize 1 (2 + (pctEncode maskUserinfoNC s).length + 1)
          u).off 1) ['/', '/']).store
        ((resize 1 (2 + (pctEncode maskUserinfoNC s).length + 1) u).off 1 +
          2 + (pctEncode maskUserinfoNC s).length) ['@']).split 1
        (2 + (pctEncode maskUserinfoNC s).length)).store
        ((resize 1 (2 + (pctEncode maskUserinfoNC s).length + 1) u).off 1 + 2)
        (pctEncode maskUserinfoNC s)).buf) =
        u.buf.take (u.off 1) ++
          ('/' :: '/' :: (pctEncode maskUserinfoNC s ++ ['@'])) ++
          u.buf.drop (u.off 2) := by
      show writeB ((resize 1 (2 + (pctEncode maskUserinfoNC s).length + 1)
          u).off 1 + 2) (pctEncode maskUserinfoNC s)
        (writeB ((resize 1 (2 + (pctEncode maskUserinfoNC s).length + 1)
          u).off 1 + 2 + (pctEncode maskUserinfoNC s).length) ['@']
          (writeB ((resize 1 (2 + (pctEncode maskUserinfoNC s).length + 1)
            u).off 1) ['/', '/']
            (resize 1 (2 + (pctEncode maskUserinfoNC s).length + 1) u).buf)) =
          _
      rw [ho1, hbufR]
      have t1 := writeB_mid (u.buf.take (u.off 1))
        (rContent u 1 (1 + 1) (2 + (pctEncode maskUserinfoNC s).length + 1))
        (u.buf.drop (u.off 2)) ['/', '/'] 0
        (by simp only [List.length_cons, List.length_nil, hC]; omega)
      rw [Nat.add_zero, hP] at t1
      rw [t1]
      have t2 := writeB_mid (u.buf.take (u.off 1))
        (writeB 0 ['/', '/'] (rContent u 1 (1 + 1)
          (2 + (pctEncode maskUserinfoNC s).length + 1)))
        (u.buf.drop (u.off 2)) ['@'] (2 + (pctEncode maskUserinfoNC s).length)
        (by simp only [List.length_cons, List.length_nil, hL1]; omega)
      rw [hP] at t2
      rw [show u.off 1 + 2 + (pctEncode maskUserinfoNC s).length =
        u.off 1 + (2 + (pctEncode maskUserinfoNC s).length) from by omega]
      rw [t2]
      have t3 := writeB_mid (u.buf.take (u.off 1))
        (writeB (2 + (pctEncode maskUserinfoNC s).length) ['@']
          (writeB 0 ['/', '/'] (rContent u 1 (1 + 1)
            (2 + (pctEncode maskUserinfoNC s).length + 1))))
        (u.buf.drop (u.off 2)) (pctEncode maskUserinfoNC s) 2
        (by rw [length_writeB (by simp only [List.length_cons,
            List.length_nil, hL1]; omega), hL1]; omega)
      rw [hP] at t3
      rw [t3, wseq_user _ _ (by omega)]
    show (((((resize 1 (2 + (pctEncode maskUserinfoNC s).length + 1)
        u).store ((resize 1 (2 + (pctEncode maskUserinfoNC s).length + 1)
          u).off 1) ['/', '/']).store
        ((resize 1 (2 + (pctEncode maskUserinfoNC s).length + 1) u).off 1 +
          2 + (pctEncode maskUserinfoNC s).length) ['@']).split 1
        (2 + (pctEncode maskUserinfoNC s).length)).store
        ((resize 1 (2 + (pctEncode maskUserinfoNC s).length + 1) u).off 1 + 2)
        (pctEncode maskUserinfoNC s)).get 1 =
      ['/', '/'] ++ pctEncode maskUserinfoNC s
    unfold Url.get Url.len
    rw [hvb]
    simp only [off_store]
    have hsp1 : (((((resize 1 (2 + (pctEncode maskUserinfoNC s).length + 1)
        u).store ((resize 1 (2 + (pctEncode maskUserinfoNC s).length + 1)
          u).off 1) ['/', '/']).store
        ((resize 1 (2 + (pctEncode maskUserinfoNC s).length + 1) u).off 1 +
          2 + (pctEncode maskUserinfoNC s).length) ['@']).split 1
        (2 + (pctEncode maskUserinfoNC s).length)).off 1) = u.off 1 := by
      rw [off_split _ 1 _ 1 (by omega), if_neg (by omega)]
      simp only [off_store]
      exact ho1
    have hsp2 : (((((resize 1 (2 + (pctEncode maskUserinfoNC s).length + 1)
        u).store ((resize 1 (2 + (pctEncode maskUserinfoNC s).length + 1)
          u).off 1) ['/', '/']).store
        ((resize 1 (2 + (pctEncode maskUserinfoNC s).length + 1) u).off 1 +
          2 + (pctEncode maskUserinfoNC s).length) ['@']).split 1
        (2 + (pctEncode maskUserinfoNC s).length)).off 2) =
        u.off 1 + (2 + (pctEncode maskUserinfoNC s).length) := by
      rw [off_split _ 1 _ 2 (by omega), if_pos rfl]
      simp only [off_store]
      rw [ho1]
    rw [hsp1, hsp2]
    have hn : u.off 1 + (2 + (pctEncode maskUserinfoNC s).length) - u.off 1 =
        2 + (pctEncode maskUserinfoNC s).length := by omega
    rw [hn]
    have smid := seg_inside (u.buf.take (u.off 1))
      ('/' :: '/' :: (pctEncode maskUserinfoNC s ++ ['@']))
      (u.buf.drop (u.off 2)) 0 (2 + (pctEncode maskUserinfoNC s).length)
      (by simp only [List.length_cons, List.length_append, List.length_nil]
          omega)
    rw [hP, Nat.add_zero] at smid
    rw [smid]
    unfold seg
    rw [List.drop_zero]
    show ('/' :: '/' :: (pctEncode maskUserinfoNC s ++ ['@'])).take
      (2 + (pctEncode maskUserinfoNC s).length) = _
    rw [show 2 + (pctEncode maskUserinfoNC s).length =
      (pctEncode maskUserinfoNC s).length + 1 + 1 from by omega]
    rw [List.take_succ_cons, List.take_succ_cons]
    rw [show (pctEncode maskUserinfoNC s).length =
      (pctEncode maskUserinfoNC s).length + 0 from by omega]
    rw [List.take_append]
    simp

theorem set_password_pos (u : Url) (hwf : WF u) (s : List Char)
    (hs : ¬ s = []) :
    (set_password s u).isOk = true ∧
    (set_password s u).st.get 2 =
      ':' :: (pctEncode maskUserinfo s ++ ['@']) ∧
    (set_password s u).st.off 1 = u.off 1 ∧
    (set_password s u).st.lenR 1 5 ≠ 0 ∧
    (u.len 1 ≠ 0 → (set_password s u).st.get 1 = u.get 1) ∧
    (u.len 1 = 0 → (set_password s u).st.get 1 = ['/', '/']) := by
  have hmono12 : u.off 1 ≤ u.off 2 := hwf.2.2.1 1 (by omega)
  have hmono23 : u.off 2 ≤ u.off 3 := hwf.2.2.1 2 (by omega)
  have hmono35 : u.off 3 ≤ u.off 5 := hwf.mono (by omega) (by omega)
  have hle3 : u.off 3 ≤ u.buf.length - 1 := hwf.off_le_buf (by omega)
  have hb1 : 1 ≤ u.buf.length := by
    have := hwf.2.2.2.1
    omega
  unfold set_password
  rw [if_neg hs]
  by_cases h1 : u.len 1 ≠ 0
  · rw [if_pos h1]
    have hP : (u.buf.take (u.off 2)).length = u.off 2 :=
      take_pref_len (by omega)
    have hC : (rContent u 2 (2 + 1)
        (1 + (pctEncode maskUserinfo s).length + 1)).length =
        1 + (pctEncode maskUserinfo s).length + 1 :=
      rContent_length _ hwf (by omega) (by omega)
    have ho1 : (resize 2 (1 + (pctEncode maskUserinfo s).length + 1)
        u).off 1 = u.off 1 := by
      unfold resize
      rw [off_resizeR u 2 (2 + 1) _ 1 (by omega), if_pos (by omega)]
    have ho2 : (resize 2 (1 + (pctEncode maskUserinfo s).length + 1)
        u).off 2 = u.off 2 := by
      unfold resize
      rw [off_resizeR u 2 (2 + 1) _ 2 (by omega), if_pos (by omega)]
    have ho3 : (resize 2 (1 + (pctEncode maskUserinfo s).length + 1)
        u).off 3 = u.off 3 + (1 + (pctEncode maskUserinfo s).length + 1) -
          u.lenR 2 (2 + 1) := by
      unfold resize
      rw [off_resizeR u 2 (2 + 1) _ 3 (by omega), if_neg (by omega),
        if_neg (by omega)]
    have ho5 : (resize 2 (1 + (pctEncode maskUserinfo s).length + 1)
        u).off 5 = u.off 5 + (1 + (pctEncode maskUserinfo s).length + 1) -
          u.lenR 2 (2 + 1) := by
      unfold resize
      rw [off_resizeR u 2 (2 + 1) _ 5 (by omega), if_neg (by omega),
        if_neg (by omega)]
    have hbufR : (resize 2 (1 + (pctEncode maskUserinfo s).length + 1)
        u).buf = u.buf.take (u.off 2) ++
          rContent u 2 (2 + 1) (1 + (pctEncode maskUserinfo s).length + 1) ++
          u.buf.drop (u.off 3) := by
      have t := resizeR_buf u 2 (2 + 1)
        (1 + (pctEncode maskUserinfo s).length + 1)
      rw [show (2 : Nat) + 1 = 3 from by norm_num] at t
      exact t
    have hL1 : (writeB 0 [':'] (rContent u 2 (2 + 1)
        (1 + (pctEncode maskUserinfo s).length + 1))).length =
        1 + (pctEncode maskUserinfo s).length + 1 := by
      have hb : 0 + ([':'] : List Char).length ≤
          (rContent u 2 (2 + 1)
            (1 + (pctEncode maskUserinfo s).length + 1)).length := by
        simp only [List.length_cons, List.length_nil, hC]
        omega
      rw [length_writeB hb, hC]
    have hvb : ((((resize 2 (1 + (pctEncode maskUserinfo s).length + 1)
        u).store ((resize 2 (1 + (pctEncode maskUserinfo s).length + 1)
          u).off 2) [':']).store
        ((resize 2 (1 + (pctEncode maskUserinfo s).length + 1) u).off 2 +
          (pctEncode maskUserinfo s).length + 1) ['@']).store
        ((resize 2 (1 + (pctEncode maskUserinfo s).length + 1) u).off 2 + 1)
        (pctEncode maskUserinfo s)).buf =
        u.buf.take (u.off 2) ++
          (':' :: (pctEncode maskUserinfo s ++ ['@'])) ++
          u.buf.drop (u.off 3) := by
      show writeB ((resize 2 (1 + (pctEncode maskUserinfo s).length + 1)
          u).off 2 + 1) (pctEncode maskUserinfo s)
        (writeB ((resize 2 (1 + (pctEncode maskUserinfo s).length + 1)
          u).off 2 + (pctEncode maskUserinfo s).length + 1) ['@']
          (writeB ((resize 2 (1 + (pctEncode maskUserinfo s).length + 1)
            u).off 2) [':']
            (resize 2 (1 + (pctEncode maskUserinfo s).length + 1) u).buf)) = _
      rw [ho2, hbufR]
      have t1 := writeB_mid (u.buf.take (u.off 2))
        (rContent u 2 (2 + 1) (1 + (pctEncode maskUserinfo s).length + 1))
        (u.buf.drop (u.off 3)) [':'] 0
        (by simp only [List.length_cons, List.length_nil, hC]; omega)
      rw [Nat.add_zero, hP] at t1
      rw [t1]
      have t2 := writeB_mid (u.buf.take (u.off 2))
        (writeB 0 [':'] (rContent u 2 (2 + 1)
          (1 + (pctEncode maskUserinfo s).length + 1)))
        (u.buf.drop (u.off 3)) ['@'] ((pctEncode maskUserinfo s).length + 1)
        (by simp only [List.length_cons, List.length_nil, hL1]; omega)
      rw [hP] at t2
      rw [show u.off 2 + (pctEncode maskUserinfo s).length + 1 =
        u.off 2 + ((pctEncode maskUserinfo s).length + 1) from by omega]
      rw [t2]
      have t3 := writeB_mid (u.buf.take (u.off 2))
        (writeB ((pctEncode maskUserinfo s).length + 1) ['@']
          (writeB 0 [':'] (rContent u 2 (2 + 1)
            (1 + (pctEncode maskUserinfo s).length + 1))))
        (u.buf.drop (u.off 3)) (pctEncode maskUserinfo s) 1
        (by rw [length_writeB (by simp only [List.length_cons,
            List.length_nil, hL1]; omega), hL1]; omega)
      rw [hP] at t3
      rw [t3, wseq_pass _ _ (by omega)]
    refine ⟨rfl, ?_, ?_, ?_, ?_, ?_⟩
    · show ((((resize 2 (1 + (pctEncode maskUserinfo s).length + 1)
          u).store ((resize 2 (1 + (pctEncode maskUserinfo s).length + 1)
            u).off 2) [':']).store
          ((resize 2 (1 + (pctEncode maskUserinfo s).length + 1) u).off 2 +
            (pctEncode maskUserinfo s).length + 1) ['@']).store
          ((resize 2 (1 + (pctEncode maskUserinfo s).length + 1) u).off 2 + 1)
          (pctEncode maskUserinfo s)).get 2 = _
      unfold Url.get Url.len
      rw [hvb]
      simp only [off_store]
      rw [ho2, ho3]
      have hn : u.off 3 + (1 + (pctEncode maskUserinfo s).length + 1) -
          u.lenR 2 (2 + 1) - u.off 2 =
          1 + (pctEncode maskUserinfo s).length + 1 := by
        unfold Url.lenR
        rw [show (2 : Nat) + 1 = 3 from by norm_num]
        omega
      rw [hn]
      have smid := seg_mid (u.buf.take (u.off 2))
        (':' :: (pctEncode maskUserinfo s ++ ['@']))
        (u.buf.drop (u.off 3))
      rw [hP] at smid
      have hlen : (':' :: (pctEncode maskUserinfo s ++ ['@'])).length =
          1 + (pctEncode maskUserinfo s).length + 1 := by
        simp only [List.length_cons, List.length_append, List.length_nil]
        omega
      rw [hlen] at smid
      exact smid
    · show ((((resize 2 (1 + (pctEncode maskUserinfo s).length + 1)
          u).store ((resize 2 (1 + (pctEncode maskUserinfo s).length + 1)
            u).off 2) [':']).store
          ((resize 2 (1 + (pctEncode maskUserinfo s).length + 1) u).off 2 +
            (pctEncode maskUserinfo s).length + 1) ['@']).store
          ((resize 2 (1 + (pctEncode maskUserinfo s).length + 1) u).off 2 + 1)
          (pctEncode maskUserinfo s)).off 1 = _
      simp only [off_store]
      exact ho1
    · show ((((resize 2 (1 + (pctEncode maskUserinfo s).length + 1)
          u).store ((resize 2 (1 + (pctEncode maskUserinfo s).length + 1)
            u).off 2) [':']).store
          ((resize 2 (1 + (pctEncode maskUserinfo s).length + 1) u).off 2 +
            (pctEncode maskUserinfo s).length + 1) ['@']).store
          ((resize 2 (1 + (pctEncode maskUserinfo s).length + 1) u).off 2 + 1)
          (pctEncode maskUserinfo s)).lenR 1 5 ≠ 0
      unfold Url.lenR
      simp only [off_store]
      rw [ho1, ho5]
      unfold Url.lenR
      rw [show (2 : Nat) + 1 = 3 from by norm_num]
      omega
    · intro _
      show ((((resize 2 (1 + (pctEncode maskUserinfo s).length + 1)
          u).store ((resize 2 (1 + (pctEncode maskUserinfo s).length + 1)
            u).off 2) [':']).store
          ((resize 2 (1 + (pctEncode maskUserinfo s).length + 1) u).off 2 +
            (pctEncode maskUserinfo s).length + 1) ['@']).store
          ((resize 2 (1 + (pctEncode maskUserinfo s).length + 1) u).off 2 + 1)
          (pctEncode maskUserinfo s)).get 1 = u.get 1
      unfold Url.get Url.len
      rw [hvb]
      simp only [off_store]
      rw [ho1, ho2]
      have s1 := seg_pref (u.buf.take (u.off 2))
        ((':' :: (pctEncode maskUserinfo s ++ ['@'])) ++
          u.buf.drop (u.off 3)) (u.off 1) (u.off 2 - u.off 1)
        (by rw [hP]; omega)
      have s2 := seg_take u.buf (u.off 2) (u.off 1) (u.off 2 - u.off 1)
        (by omega)
      rw [show (1 : Nat) + 1 = 2 from by norm_num, List.append_assoc]
      exact s1.trans s2
    · intro hcon
      exact absurd hcon h1
  · rw [if_neg h1]
    have hlen1 : u.len 1 = 0 := not_not.mp h1
    have hmono13 : u.off 1 ≤ u.off 3 := hwf.mono (by omega) (by omega)
    have hP : (u.buf.take (u.off 1)).length = u.off 1 :=
      take_pref_len (by omega)
    have hC : (rContent u 1 3
        (2 + 1 + (pctEncode maskUserinfo s).length + 1)).length =
        2 + 1 + (pctEncode maskUserinfo s).length + 1 :=
      rContent_length _ hwf (by omega) (by omega)
    have ho1 : (resizeR 1 3 (2 + 1 + (pctEncode maskUserinfo s).length + 1)
        u).off 1 = u.off 1 := by
      rw [off_resizeR u 1 3 _ 1 (by omega), if_pos (by omega)]
    have ho3 : (resizeR 1 3 (2 + 1 + (pctEncode maskUserinfo s).length + 1)
        u).off 3 = u.off 3 +
          (2 + 1 + (pctEncode maskUserinfo s).length + 1) - u.lenR 1 3 := by
      rw [off_resizeR u 1 3 _ 3 (by omega), if_neg (by omega),
        if_neg (by omega)]
    have ho5 : (resizeR 1 3 (2 + 1 + (pctEncode maskUserinfo s).length + 1)
        u).off 5 = u.off 5 +
          (2 + 1 + (pctEncode maskUserinfo s).length + 1) - u.lenR 1 3 := by
      rw [off_resizeR u 1 3 _ 5 (by omega), if_neg (by omega),
        if_neg (by omega)]
    have hbufR : (resizeR 1 3 (2 + 1 + (pctEncode maskUserinfo s).length + 1)
        u).buf = u.buf.take (u.off 1) ++
          rContent u 1 3 (2 + 1 + (pctEncode maskUserinfo s).length + 1) ++
          u.buf.drop (u.off 3) :=
      resizeR_buf u 1 3 (2 + 1 + (pctEncode maskUserinfo s).length + 1)
    have hL1 : (writeB 0 ['/', '/'] (rContent u 1 3
        (2 + 1 + (pctEncode maskUserinfo s).length + 1))).length =
        2 + 1 + (pctEncode maskUserinfo s).length + 1 := by
      have hb : 0 + (['/', '/'] : List Char).length ≤
          (rContent u 1 3
            (2 + 1 + (pctEncode maskUserinfo s).length + 1)).length := by
        simp only [List.length_cons, List.length_nil, hC]
        omega
      rw [length_writeB hb, hC]
    have hL2 : (writeB 2 [':'] (writeB 0 ['/', '/'] (rContent u 1 3
        (2 + 1 + (pctEncode maskUserinfo s).length + 1)))).length =
        2 + 1 + (pctEncode maskUserinfo s).length + 1 := by
      have hb : 2 + ([':'] : List Char).length ≤
          (writeB 0 ['/', '/'] (rContent u 1 3
            (2 + 1 + (pctEncode maskUserinfo s).length + 1))).length := by
        simp only [List.length_cons, List.length_nil, hL1]
        omega
      rw [length_writeB hb, hL1]
    have hL3 : (writeB (2 + (pctEncode maskUserinfo s).length + 1) ['@']
        (writeB 2 [':'] (writeB 0 ['/', '/'] (rContent u 1 3
          (2 + 1 + (pctEncode maskUserinfo s).length + 1))))).length =
        2 + 1 + (pctEncode maskUserinfo s).length + 1 := by
      have hb : 2 + (pctEncode maskUserinfo s).length + 1 +
          (['@'] : List Char).length ≤
          (writeB 2 [':'] (writeB 0 ['/', '/'] (rContent u 1 3
            (2 + 1 + (pctEncode maskUserinfo s).length + 1)))).length := by
        simp only [List.length_cons, List.length_nil, hL2]
        omega
      rw [length_writeB hb, hL2]
    have hvb : (((((resizeR 1 3
        (2 + 1 + (pctEncode maskUserinfo s).length + 1) u).store
          ((resizeR 1 3 (2 + 1 + (pctEncode maskUserinfo s).length + 1)
            u).off 1) ['/', '/']).store
          ((resizeR 1 3 (2 + 1 + (pctEncode maskUserinfo s).length + 1)
            u).off 1 + 2) [':']).store
          ((resizeR 1 3 (2 + 1 + (pctEncode maskUserinfo s).length + 1)
            u).off 1 + 2 + (pctEncode maskUserinfo s).length + 1)
          ['@']).store
          ((resizeR 1 3 (2 + 1 + (pctEncode maskUserinfo s).length + 1)
            u).off 1 + 3) (pctEncode maskUserinfo s)).buf =
        u.buf.take (u.off 1) ++
          ('/' :: '/' :: ':' :: (pctEncode maskUserinfo s ++ ['@'])) ++
          u.buf.drop (u.off 3) := by
      show writeB ((resizeR 1 3
          (2 + 1 + (pctEncode maskUserinfo s).length + 1) u).off 1 + 3)
          (pctEncode maskUserinfo s)
        (writeB ((resizeR 1 3 (2 + 1 + (pctEncode maskUserinfo s).length + 1)
            u).off 1 + 2 + (pctEncode maskUserinfo s).length + 1) ['@']
          (writeB ((resizeR 1 3
              (2 + 1 + (pctEncode maskUserinfo s).length + 1) u).off 1 + 2)
            [':']
            (writeB ((resizeR 1 3
                (2 + 1 + (pctEncode maskUserinfo s).length + 1) u).off 1)
              ['/', '/']
              (resizeR 1 3 (2 + 1 + (pctEncode maskUserinfo s).length + 1)
                u).buf))) = _
      rw [ho1, hbufR]
      have t1 := writeB_mid (u.buf.take (u.off 1))
        (rContent u 1 3 (2 + 1 + (pctEncode maskUserinfo s).length + 1))
        (u.buf.drop (u.off 3)) ['/', '/'] 0
        (by simp only [List.length_cons, List.length_nil, hC]; omega)
      rw [Nat.add_zero, hP] at t1
      rw [t1]
      have t2 := writeB_mid (u.buf.take (u.off 1))
        (writeB 0 ['/', '/'] (rContent u 1 3
          (2 + 1 + (pctEncode maskUserinfo s).length + 1)))
        (u.buf.drop (u.off 3)) [':'] 2
        (by simp only [List.length_cons, List.length_nil, hL1]; omega)
      rw [hP] at t2
      rw [t2]
      have t3 := writeB_mid (u.buf.take (u.off 1))
        (writeB 2 [':'] (writeB 0 ['/', '/'] (rContent u 1 3
          (2 + 1 + (pctEncode maskUserinfo s).length + 1))))
        (u.buf.drop (u.off 3)) ['@']
        (2 + (pctEncode maskUserinfo s).length + 1)
        (by simp only [List.length_cons, List.length_nil, hL2]; omega)
      rw [hP] at t3
      rw [show u.off 1 + 2 + (pctEncode maskUserinfo s).length + 1 =
        u.off 1 + (2 + (pctEncode maskUserinfo s).length + 1) from by omega]
      rw [t3]
      have t4 := writeB_mid (u.buf.take (u.off 1))
        (writeB (2 + (pctEncode maskUserinfo s).length + 1) ['@']
          (writeB 2 [':'] (writeB 0 ['/', '/'] (rContent u 1 3
            (2 + 1 + (pctEncode maskUserinfo s).length + 1)))))
        (u.buf.drop (u.off 3)) (pctEncode maskUserinfo s) 3
        (by rw [hL3]; omega)
      rw [hP] at t4
      rw [show u.off 1 + 3 = u.off 1 + 3 from rfl]
      rw [t4, wseq_pass2 _ _ (by omega)]
    have hso1 : ((((((resizeR 1 3
        (2 + 1 + (pctEncode maskUserinfo s).length + 1) u).store
          ((resizeR 1 3 (2 + 1 + (pctEncode maskUserinfo s).length + 1)
            u).off 1) ['/', '/']).store
          ((resizeR 1 3 (2 + 1 + (pctEncode maskUserinfo s).length + 1)
            u).off 1 + 2) [':']).store
          ((resizeR 1 3 (2 + 1 + (pctEncode maskUserinfo s).length + 1)
            u).off 1 + 2 + (pctEncode maskUserinfo s).length + 1)
          ['@']).store
          ((resizeR 1 3 (2 + 1 + (pctEncode maskUserinfo s).length + 1)
            u).off 1 + 3) (pctEncode maskUserinfo s)).split 1 2).off 1 =
        u.off 1 := by
      rw [off_split _ 1 2 1 (by omega), if_neg (by omega)]
      simp only [off_store]
      exact ho1
    have hso2 : ((((((resizeR 1 3
        (2 + 1 + (pctEncode maskUserinfo s).length + 1) u).store
          ((resizeR 1 3 (2 + 1 + (pctEncode maskUserinfo s).length + 1)
            u).off 1) ['/', '/']).store
          ((resizeR 1 3 (2 + 1 + (pctEncode maskUserinfo s).length + 1)
            u).off 1 + 2) [':']).store
          ((resizeR 1 3 (2 + 1 + (pctEncode maskUserinfo s).length + 1)
            u).off 1 + 2 + (pctEncode maskUserinfo s).length + 1)
          ['@']).store
          ((resizeR 1 3 (2 + 1 + (pctEncode maskUserinfo s).length + 1)
            u).off 1 + 3) (pctEncode maskUserinfo s)).split 1 2).off 2 =
        u.off 1 + 2 := by
      rw [off_split _ 1 2 2 (by omega), if_pos rfl]
      simp only [off_store]
      rw [ho1]
    have hso3 : ((((((resizeR 1 3
        (2 + 1 + (pctEncode maskUserinfo s).length + 1) u).store
          ((resizeR 1 3 (2 + 1 + (pctEncode maskUserinfo s).length + 1)
            u).off 1) ['/', '/']).store
          ((resizeR 1 3 (2 + 1 + (pctEncode maskUserinfo s).length + 1)
            u).off 1 + 2) [':']).store
          ((resizeR 1 3 (2 + 1 + (pctEncode maskUserinfo s).length + 1)
            u).off 1 + 2 + (pctEncode maskUserinfo s).length + 1)
          ['@']).store
          ((resizeR 1 3 (2 + 1 + (pctEncode maskUserinfo s).length + 1)
            u).off 1 + 3) (pctEncode maskUserinfo s)).split 1 2).off 3 =
        u.off 3 + (2 + 1 + (pctEncode maskUserinfo s).length + 1) -
          u.lenR 1 3 := by
      rw [off_split _ 1 2 3 (by omega), if_neg (by omega)]
      simp only [off_store]
      exact ho3
    have hso5 : ((((((resizeR 1 3
        (2 + 1 + (pctEncode maskUserinfo s).length + 1) u).store
          ((resizeR 1 3 (2 + 1 + (pctEncode maskUserinfo s).length + 1)
            u).off 1) ['/', '/']).store
          ((resizeR 1 3 (2 + 1 + (pctEncode maskUserinfo s).length + 1)
            u).off 1 + 2) [':']).store
          ((resizeR 1 3 (2 + 1 + (pctEncode maskUserinfo s).length + 1)
            u).off 1 + 2 + (pctEncode maskUserinfo s).length + 1)
          ['@']).store
          ((resizeR 1 3 (2 + 1 + (pctEncode maskUserinfo s).length + 1)
            u).off 1 + 3) (pctEncode maskUserinfo s)).split 1 2).off 5 =
        u.off 5 + (2 + 1 + (pctEncode maskUserinfo s).length + 1) -
          u.lenR 1 3 := by
      rw [off_split _ 1 2 5 (by omega), if_neg (by omega)]
      simp only [off_store]
      exact ho5
    refine ⟨rfl, ?_, ?_, ?_, ?_, ?_⟩
    · show ((((((resizeR 1 3
          (2 + 1 + (pctEncode maskUserinfo s).length + 1) u).store
            ((resizeR 1 3 (2 + 1 + (pctEncode maskUserinfo s).length + 1)
              u).off 1) ['/', '/']).store
            ((resizeR 1 3 (2 + 1 + (pctEncode maskUserinfo s).length + 1)
              u).off 1 + 2) [':']).store
            ((resizeR 1 3 (2 + 1 + (pctEncode maskUserinfo s).length + 1)
              u).off 1 + 2 + (pctEncode maskUserinfo s).length + 1)
            ['@']).store
            ((resizeR 1 3 (2 + 1 + (pctEncode maskUserinfo s).length + 1)
              u).off 1 + 3) (pctEncode maskUserinfo s)).split 1 2).get 2 = _
      unfold Url.get Url.len
      rw [show ((((((resizeR 1 3
          (2 + 1 + (pctEncode maskUserinfo s).length + 1) u).store
            ((resizeR 1 3 (2 + 1 + (pctEncode maskUserinfo s).length + 1)
              u).off 1) ['/', '/']).store
            ((resizeR 1 3 (2 + 1 + (pctEncode maskUserinfo s).length + 1)
              u).off 1 + 2) [':']).store
            ((resizeR 1 3 (2 + 1 + (pctEncode maskUserinfo s).length + 1)
              u).off 1 + 2 + (pctEncode maskUserinfo s).length + 1)
            ['@']).store
            ((resizeR 1 3 (2 + 1 + (pctEncode maskUserinfo s).length + 1)
              u).off 1 + 3) (pctEncode maskUserinfo s)).split 1 2).buf =
        (((((resizeR 1 3
          (2 + 1 + (pctEncode maskUserinfo s).length + 1) u).store
            ((resizeR 1 3 (2 + 1 + (pctEncode maskUserinfo s).length + 1)
              u).off 1) ['/', '/']).store
            ((resizeR 1 3 (2 + 1 + (pctEncode maskUserinfo s).length + 1)
              u).off 1 + 2) [':']).store
            ((resizeR 1 3 (2 + 1 + (pctEncode maskUserinfo s).length + 1)
              u).off 1 + 2 + (pctEncode maskUserinfo s).length + 1)
            ['@']).store
            ((resizeR 1 3 (2 + 1 + (pctEncode maskUserinfo s).length + 1)
              u).off 1 + 3) (pctEncode maskUserinfo s)).buf from rfl]
      rw [hvb, hso2, hso3]
      have hn : u.off 3 + (2 + 1 + (pctEncode maskUserinfo s).length + 1) -
          u.lenR 1 3 - (u.off 1 + 2) =
          (pctEncode maskUserinfo s).length + 2 := by
        unfold Url.lenR
        omega
      rw [hn]
      have smid := seg_inside (u.buf.take (u.off 1))
        ('/' :: '/' :: ':' :: (pctEncode maskUserinfo s ++ ['@']))
        (u.buf.drop (u.off 3)) 2 ((pctEncode maskUserinfo s).length + 2)
        (by simp only [List.length_cons, List.length_append, List.length_nil]
            omega)
      rw [hP] at smid
      rw [smid]
      show (':' :: (pctEncode maskUserinfo s ++ ['@'])).take
        ((pctEncode maskUserinfo s).length + 2) = _
      rw [show (pctEncode maskUserinfo s).length + 2 =
        (':' :: (pctEncode maskUserinfo s ++ ['@'])).length from by
          simp only [List.length_cons, List.length_append, List.length_nil]]
      exact List.take_length _
    · show ((((((resizeR 1 3
          (2 + 1 + (pctEncode maskUserinfo s).length + 1) u).store
            ((resizeR 1 3 (2 + 1 + (pctEncode maskUserinfo s).length + 1)
              u).off 1) ['/', '/']).store
            ((resizeR 1 3 (2 + 1 + (pctEncode maskUserinfo s).length + 1)
              u).off 1 + 2) [':']).store
            ((resizeR 1 3 (2 + 1 + (pctEncode maskUserinfo s).length + 1)
              u).off 1 + 2 + (pctEncode maskUserinfo s).length + 1)
            ['@']).store
            ((resizeR 1 3 (2 + 1 + (pctEncode maskUserinfo s).length + 1)
              u).off 1 + 3) (pctEncode maskUserinfo s)).split 1 2).off 1 = _
      exact hso1
    · show ((((((resizeR 1 3
          (2 + 1 + (pctEncode maskUserinfo s).length + 1) u).store
            ((resizeR 1 3 (2 + 1 + (pctEncode maskUserinfo s).length + 1)
              u).off 1) ['/', '/']).store
            ((resizeR 1 3 (2 + 1 + (pctEncode maskUserinfo s).length + 1)
              u).off 1 + 2) [':']).store
            ((resizeR 1 3 (2 + 1 + (pctEncode maskUserinfo s).length + 1)
              u).off 1 + 2 + (pctEncode maskUserinfo s).length + 1)
            ['@']).store
            ((resizeR 1 3 (2 + 1 + (pctEncode maskUserinfo s).length + 1)
              u).off 1 + 3) (pctEncode maskUserinfo s)).split 1 2).lenR 1 5
          ≠ 0
      unfold Url.lenR
      rw [hso1, hso5]
      unfold Url.lenR
      omega
    · intro hcon
      exact absurd hlen1 hcon
    · intro _
      show ((((((resizeR 1 3
          (2 + 1 + (pctEncode maskUserinfo s).length + 1) u).store
            ((resizeR 1 3 (2 + 1 + (pctEncode maskUserinfo s).length + 1)
              u).off 1) ['/', '/']).store
            ((resizeR 1 3 (2 + 1 + (pctEncode maskUserinfo s).length + 1)
              u).off 1 + 2) [':']).store
            ((resizeR 1 3 (2 + 1 + (pctEncode maskUserinfo s).length + 1)
              u).off 1 + 2 + (pctEncode maskUserinfo s).length + 1)
            ['@']).store
            ((resizeR 1 3 (2 + 1 + (pctEncode maskUserinfo s).length + 1)
              u).off 1 + 3) (pctEncode maskUserinfo s)).split 1 2).get 1 =
        ['/', '/']
      unfold Url.get Url.len
      rw [show ((((((resizeR 1 3
          (2 + 1 + (pctEncode maskUserinfo s).length + 1) u).store
            ((resizeR 1 3 (2 + 1 + (pctEncode maskUserinfo s).length + 1)
              u).off 1) ['/', '/']).store
            ((resizeR 1 3 (2 + 1 + (pctEncode maskUserinfo s).length + 1)
              u).off 1 + 2) [':']).store
            ((resizeR 1 3 (2 + 1 + (pctEncode maskUserinfo s).length + 1)
              u).off 1 + 2 + (pctEncode maskUserinfo s).length + 1)
            ['@']).store
            ((resizeR 1 3 (2 + 1 + (pctEncode maskUserinfo s).length + 1)
              u).off 1 + 3) (pctEncode maskUserinfo s)).split 1 2).buf =
        (((((resizeR 1 3
          (2 + 1 + (pctEncode maskUserinfo s).length + 1) u).store
            ((resizeR 1 3 (2 + 1 + (pctEncode maskUserinfo s).length + 1)
              u).off 1) ['/', '/']).store
            ((resizeR 1 3 (2 + 1 + (pctEncode maskUserinfo s).length + 1)
              u).off 1 + 2) [':']).store
            ((resizeR 1 3 (2 + 1 + (pctEncode maskUserinfo s).length + 1)
              u).off 1 + 2 + (pctEncode maskUserinfo s).length + 1)
            ['@']).store
            ((resizeR 1 3 (2 + 1 + (pctEncode maskUserinfo s).length + 1)
              u).off 1 + 3) (pctEncode maskUserinfo s)).buf from rfl]
      rw [hvb, hso1, hso2]
      have hn : u.off 1 + 2 - u.off 1 = 2 := by omega
      rw [hn]
      have smid := seg_inside (u.buf.take (u.off 1))
        ('/' :: '/' :: ':' :: (pctEncode maskUserinfo s ++ ['@']))
        (u.buf.drop (u.off 3)) 0 2
        (by simp only [List.length_cons, List.length_append, List.length_nil]
            omega)
      rw [hP, Nat.add_zero] at smid
      rw [smid]
      rfl

/-- C6: removing the user (clearing it with `set_username("")`) keeps the
    userinfo — `"//"` followed by the untouched password region `":<p>@"` —
    when a password region exists beyond the bare `"@"`, and drops the
    whole userinfo down to the `"//"` authority prefix when the password
    region is exactly the bare `"@"`. -/
theorem C6_remove_user (u : Url) (hwf : WF u) (h1 : 2 ≤ u.len 1)
    (h2 : seg u.buf (u.off 1) 2 = ['/', '/']) :
    (remove_user u).isOk = true ∧
    (remove_user u).st.buf =
      u.buf.take (u.off 1) ++ '/' :: '/' ::
        u.buf.drop (u.off (if u.len 2 = 1 then 3 else 2)) := by
  have hmono12 : u.off 1 ≤ u.off 2 := hwf.2.2.1 1 (by omega)
  have hmono23 : u.off 2 ≤ u.off 3 := hwf.2.2.1 2 (by omega)
  have hkey : ∀ lst, 2 ≤ u.lenR 1 lst → rContent u 1 lst 2 = ['/', '/'] := by
    intro lst hL
    unfold rContent
    rw [if_pos hL, List.take_take, min_eq_left hL]
    exact h2
  rw [show u.len 1 = u.off 2 - u.off 1 from rfl] at h1
  unfold remove_user set_username
  rw [if_pos rfl, if_neg (by
    rw [show u.len 1 = u.off 2 - u.off 1 from rfl]; omega)]
  by_cases hc : u.len 2 = 1
  · rw [if_pos hc, if_pos hc]
    refine ⟨rfl, ?_⟩
    show (resizeR 1 3 2 u).buf = _
    rw [resizeR_buf, hkey 3 (by show 2 ≤ u.off 3 - u.off 1; omega)]
    rw [List.append_assoc]
    rfl
  · rw [if_neg hc, if_neg hc]
    refine ⟨rfl, ?_⟩
    show (resizeR 1 (1 + 1) 2 u).buf = _
    rw [resizeR_buf, hkey (1 + 1) (by
      show 2 ≤ u.off 2 - u.off 1; omega)]
    rw [show (1 : Nat) + 1 = 2 from by norm_num, List.append_assoc]
    rfl

/-- C6 witness: the two spec scenarios — `http://u:p@h/` keeps `:p@`,
    `http://u@h/` drops the userinfo. -/
theorem C6_witness :
    WF httpUPH ∧ 2 ≤ httpUPH.len 1 ∧
    seg httpUPH.buf (httpUPH.off 1) 2 = ['/', '/'] ∧
    (remove_user httpUPH).st.buf =
      httpUPH.buf.take (httpUPH.off 1) ++ '/' :: '/' ::
        httpUPH.buf.drop (httpUPH.off (if httpUPH.len 2 = 1 then 3 else 2)) ∧
    urlString (remove_user httpUPH).st = "http://:p@h/".data ∧
    (remove_user httpUH).st.buf =
      httpUH.buf.take (httpUH.off 1) ++ '/' :: '/' ::
        httpUH.buf.drop (httpUH.off (if httpUH.len 2 = 1 then 3 else 2)) ∧
    urlString (remove_user httpUH).st = "http://h/".data :=
  ⟨by decide, by decide, by decide,
   (C6_remove_user httpUPH (by decide) (by decide) (by decide)).2,
   by decide,
   (C6_remove_user httpUH (by decide) (by decide) (by decide)).2,
   by decide⟩

/-- C7: setting a non-empty password on a URL that has no user (either no
    authority at all, or an authority whose user region is the bare `"//"`)
    yields a state where the authority is present, the user region holds
    exactly `"//"`, and the password region holds `":"`, the encoded
    password, then `"@"`. -/
theorem C7_password_creates_empty_user (u : Url) (hwf : WF u) (s : List Char)
    (hs : ¬ s = [])
    (hnouser : u.len 1 = 0 ∨ (u.len 1 = 2 ∧ u.get 1 = ['/', '/'])) :
    (set_password s u).isOk = true ∧
    (set_password s u).st.get 1 = ['/', '/'] ∧
    (set_password s u).st.get 2 =
      ':' :: (pctEncode maskUserinfo s ++ ['@']) ∧
    hasAuthority (set_password s u).st = true := by
  obtain ⟨hok, hget2, hoff1, hlen15, huser, hnouser0⟩ :=
    set_password_pos u hwf s hs
  refine ⟨hok, ?_, hget2, ?_⟩
  · rcases hnouser with h0 | ⟨h2, hbytes⟩
    · exact hnouser0 h0
    · have hpres := huser (by omega)
      rw [hpres, hbytes]
  · unfold hasAuthority
    exact decide_eq_true hlen15

/-- C7 witness: a password set on the empty URL. -/
theorem C7_witness :
    WF emptyUrl ∧ ¬ "p".data = [] ∧
    (emptyUrl.len 1 = 0 ∨
      (emptyUrl.len 1 = 2 ∧ emptyUrl.get 1 = ['/', '/'])) ∧
    (set_password "p".data emptyUrl).isOk = true ∧
    (set_password "p".data emptyUrl).st.get 1 = ['/', '/'] ∧
    (set_password "p".data emptyUrl).st.get 2 =
      ':' :: (pctEncode maskUserinfo "p".data ++ ['@']) ∧
    hasAuthority (set_password "p".data emptyUrl).st = true :=
  ⟨by decide, by decide, by decide,
   (C7_password_creates_empty_user emptyUrl (by decide) "p".data (by decide)
     (by decide)).1,
   (C7_password_creates_empty_user emptyUrl (by decide) "p".data (by decide)
     (by decide)).2.1,
   (C7_password_creates_empty_user emptyUrl (by decide) "p".data (by decide)
     (by decide)).2.2.1,
   (C7_password_creates_empty_user emptyUrl (by decide) "p".data (by decide)
     (by decide)).2.2.2⟩

theorem encoded_username_short (u : Url) (h : u.len 1 ≤ 2) :
    encoded_username u = [] := by
  have hl : (u.get 1).length ≤ 2 :=
    le_trans (seg_len_le u.buf (u.off 1) (u.len 1)) h
  simp only [encoded_username]
  split
  · rename_i hs; exact hs
  · exact List.drop_eq_nil_of_le hl

theorem encoded_password_short (u : Url) (h : u.len 2 ≤ 1) :
    encoded_password u = [] := by
  have hl : (u.get 2).length ≤ 1 :=
    le_trans (seg_len_le u.buf (u.off 2) (u.len 2)) h
  simp only [encoded_password]
  rw [if_pos hl]

theorem roundtrip_user (u : Url) (hwf : WF u) (v : List Char)
    (hbytes : ∀ c ∈ v, c.toNat < 256) :
    plain_user (set_username v u).st = v := by
  by_cases hv : v = []
  · subst hv
    have hmono12 : u.off 1 ≤ u.off 2 := hwf.2.2.1 1 (by omega)
    suffices h : encoded_username (set_username [] u).st = [] by
      unfold plain_user; rw [h]; rfl
    unfold set_username
    rw [if_pos rfl]
    by_cases h1 : u.len 1 = 0
    · rw [if_pos h1]
      exact encoded_username_short u (by omega)
    · rw [if_neg h1]
      by_cases h2 : u.len 2 = 1
      · rw [if_pos h2]
        apply encoded_username_short
        show (resizeR 1 3 2 u).off (1 + 1) - (resizeR 1 3 2 u).off 1 ≤ 2
        rw [show (1 : Nat) + 1 = 2 from by norm_num]
        rw [off_resizeR u 1 3 2 2 (by omega), off_resizeR u 1 3 2 1 (by omega)]
        rw [if_neg (by norm_num : ¬ (2 : Nat) ≤ 1),
          if_pos (by norm_num : (2 : Nat) < 3), if_pos (le_refl 1)]
        omega
      · rw [if_neg h2]
        apply encoded_username_short
        show (resizeR 1 (1 + 1) 2 u).off (1 + 1) -
          (resizeR 1 (1 + 1) 2 u).off 1 ≤ 2
        rw [show (1 : Nat) + 1 = 2 from by norm_num]
        rw [off_resizeR u 1 2 2 2 (by omega), off_resizeR u 1 2 2 1 (by omega)]
        rw [if_neg (by norm_num : ¬ (2 : Nat) ≤ 1),
          if_neg (by norm_num : ¬ (2 : Nat) < 2), if_pos (le_refl 1)]
        rw [show u.lenR 1 2 = u.off 2 - u.off 1 from rfl]
        omega
  · obtain ⟨hok, A, hA, hget⟩ := set_username_pos u hwf v hv
    unfold plain_user encoded_username
    simp only []
    rw [hget]
    have hne : ¬ (A ++ pctEncode maskUserinfoNC v = []) := by
      intro hco
      have h0 := congrArg List.length hco
      simp only [List.length_append, hA, List.length_nil] at h0
      omega
    rw [if_neg hne, drop_len_append A (pctEncode maskUserinfoNC v) 2 hA]
    exact pctDecode_pctEncode maskUserinfoNC (by decide) v hbytes

theorem roundtrip_password (u : Url) (hwf : WF u) (v : List Char)
    (hbytes : ∀ c ∈ v, c.toNat < 256) :
    plain_password (set_password v u).st = v := by
  by_cases hv : v = []
  · subst hv
    have hmono23 : u.off 2 ≤ u.off 3 := hwf.2.2.1 2 (by omega)
    suffices h : encoded_password (set_password [] u).st = [] by
      unfold plain_password; rw [h]; rfl
    unfold set_password
    rw [if_pos rfl]
    by_cases h2 : u.len 2 = 0
    · rw [if_pos h2]
      exact encoded_password_short u (by omega)
    · rw [if_neg h2]
      by_cases h1 : u.len 1 = 2
      · rw [if_pos h1]
        apply encoded_password_short
        show (resizeR 2 (2 + 1) 0 u).off (2 + 1) -
          (resizeR 2 (2 + 1) 0 u).off 2 ≤ 1
        rw [show (2 : Nat) + 1 = 3 from by norm_num]
        rw [off_resizeR u 2 3 0 3 (by omega), off_resizeR u 2 3 0 2 (by omega)]
        rw [if_neg (by norm_num : ¬ (3 : Nat) ≤ 2),
          if_neg (by norm_num : ¬ (3 : Nat) < 3), if_pos (le_refl 2)]
        rw [show u.lenR 2 3 = u.off 3 - u.off 2 from rfl]
        omega
      · rw [if_neg h1]
        apply encoded_password_short
        show (resizeR 2 (2 + 1) 1 u).off (2 + 1) -
          (resizeR 2 (2 + 1) 1 u).off 2 ≤ 1
        rw [show (2 : Nat) + 1 = 3 from by norm_num]
        rw [off_resizeR u 2 3 1 3 (by omega), off_resizeR u 2 3 1 2 (by omega)]
        rw [if_neg (by norm_num : ¬ (3 : Nat) ≤ 2),
          if_neg (by norm_num : ¬ (3 : Nat) < 3), if_pos (le_refl 2)]
        rw [show u.lenR 2 3 = u.off 3 - u.off 2 from rfl]
        omega
  · obtain ⟨hok, hget2, -, -, -, -⟩ := set_password_pos u hwf v hv
    unfold plain_password encoded_password
    simp only []
    rw [hget2]
    have hlen : (':' :: (pctEncode maskUserinfo v ++ ['@'])).length =
        (pctEncode maskUserinfo v).length + 2 := by
      simp only [List.length_cons, List.length_append, List.length_nil]
    rw [if_neg (by rw [hlen]; omega)]
    have hdl : (':' :: (pctEncode maskUserinfo v ++ ['@'])).dropLast =
        ':' :: pctEncode maskUserinfo v := by
      rw [show (':' :: (pctEncode maskUserinfo v ++ ['@'])) =
        (':' :: pctEncode maskUserinfo v) ++ ['@'] from rfl]
      exact List.dropLast_concat
    rw [hdl]
    have hh2 : (':' :: pctEncode maskUserinfo v).head? = some ':' :=
      List.head?_cons
    rw [if_pos hh2]
    show pctDecode (pctEncode maskUserinfo v) = v
    exact pctDecode_pctEncode maskUserinfo (by decide) v hbytes

theorem roundtrip_query (u : Url) (hwf : WF u) (v : List Char)
    (hbytes : ∀ c ∈ v, c.toNat < 256) :
    plain_query (set_query v u).st =
      (if v.head? = some '?' then v.drop 1 else v) := by
  by_cases hv : v = []
  · subst hv
    have hmono : u.off 6 ≤ u.off 7 := hwf.2.2.1 6 (by omega)
    unfold set_query
    rw [if_pos rfl]
    show plain_query (resize 6 0 u) = _
    have hR : (resize 6 0 u).getR 6 7 = [] := by
      have hlen : (resize 6 0 u).lenR 6 7 = 0 := by
        show (resizeR 6 (6 + 1) 0 u).off 7 - (resizeR 6 (6 + 1) 0 u).off 6 = 0
        rw [show (6 : Nat) + 1 = 7 from by norm_num]
        rw [off_resizeR u 6 7 0 7 (by omega), off_resizeR u 6 7 0 6 (by omega)]
        rw [if_neg (by norm_num : ¬ (7 : Nat) ≤ 6),
          if_neg (by norm_num : ¬ (7 : Nat) < 7), if_pos (le_refl 6)]
        rw [show u.lenR 6 7 = u.off 7 - u.off 6 from rfl]
        omega
      unfold Url.getR
      rw [hlen]
      rfl
    unfold plain_query encoded_query
    simp only []
    rw [hR]
    decide
  · obtain ⟨hok, hreg⟩ := set_query_region u hwf v hv
    unfold plain_query encoded_query
    simp only []
    rw [hreg]
    have hh : ('?' :: pctEncode maskQuery
        (if v.head? = some '?' then v.drop 1 else v)).head? = some '?' :=
      List.head?_cons
    rw [if_pos hh]
    show pctDecode (pctEncode maskQuery
      (if v.head? = some '?' then v.drop 1 else v)) = _
    by_cases hq : v.head? = some '?'
    · rw [if_pos hq]
      exact pctDecode_pctEncode maskQuery (by decide) (v.drop 1)
        (fun c hc => hbytes c (List.mem_of_mem_drop hc))
    · rw [if_neg hq]
      exact pctDecode_pctEncode maskQuery (by decide) v hbytes

theorem roundtrip_fragment (u : Url) (hwf : WF u) (v : List Char)
    (hbytes : ∀ c ∈ v, c.toNat < 256) :
    plain_fragment (set_fragment v u).st = v := by
  by_cases hv : v = []
  · subst hv
    have hmono : u.off 7 ≤ u.off 8 := hwf.2.2.1 7 (by omega)
    unfold set_fragment
    rw [if_pos rfl]
    show plain_fragment (resize 7 0 u) = []
    have hR : (resize 7 0 u).getR 7 8 = [] := by
      have hlen : (resize 7 0 u).lenR 7 8 = 0 := by
        show (resizeR 7 (7 + 1) 0 u).off 8 - (resizeR 7 (7 + 1) 0 u).off 7 = 0
        rw [show (7 : Nat) + 1 = 8 from by norm_num]
        rw [off_resizeR u 7 8 0 8 (by omega), off_resizeR u 7 8 0 7 (by omega)]
        rw [if_neg (by norm_num : ¬ (8 : Nat) ≤ 7),
          if_neg (by norm_num : ¬ (8 : Nat) < 8), if_pos (le_refl 7)]
        rw [show u.lenR 7 8 = u.off 8 - u.off 7 from rfl]
        omega
      unfold Url.getR
      rw [hlen]
      rfl
    unfold plain_fragment encoded_fragment
    simp only []
    rw [hR]
    decide
  · obtain ⟨hok, hreg⟩ := set_fragment_region u hwf v hv
    unfold plain_fragment encoded_fragment
    simp only []
    rw [hreg]
    rw [if_neg (List.cons_ne_nil '#' (pctEncode maskFrag v))]
    show pctDecode (pctEncode maskFrag v) = v
    exact pctDecode_pctEncode maskFrag (by decide) v hbytes

theorem roundtrip_hostname (u : Url) (hwf : WF u) (v : List Char)
    (hbytes : ∀ c ∈ v, c.toNat < 256) :
    plain_hostname (set_hostname v u).st = v := by
  by_cases hv : v = []
  · subst hv
    have hmono : u.off 3 ≤ u.off 4 := hwf.2.2.1 3 (by omega)
    unfold set_hostname
    rw [if_pos rfl]
    show plain_hostname (resize 3 0 u) = []
    have hR : (resize 3 0 u).get 3 = [] := by
      have hlen : (resize 3 0 u).len 3 = 0 := by
        show (resizeR 3 (3 + 1) 0 u).off (3 + 1) -
          (resizeR 3 (3 + 1) 0 u).off 3 = 0
        rw [show (3 : Nat) + 1 = 4 from by norm_num]
        rw [off_resizeR u 3 4 0 4 (by omega), off_resizeR u 3 4 0 3 (by omega)]
        rw [if_neg (by norm_num : ¬ (4 : Nat) ≤ 3),
          if_neg (by norm_num : ¬ (4 : Nat) < 4), if_pos (le_refl 3)]
        rw [show u.lenR 3 4 = u.off 4 - u.off 3 from rfl]
        omega
      unfold Url.get
      rw [hlen]
      rfl
    unfold plain_hostname encoded_hostname
    rw [hR]
    rfl
  · obtain ⟨hok, hreg⟩ := set_hostname_region u hwf v hv
    unfold plain_hostname encoded_hostname
    rw [hreg]
    exact pctDecode_pctEncode maskRegName (by decide) v hbytes

/-- C5 counterexample: the plain-query round trip is not the identity — a
    value with a leading `?` comes back with that `?` stripped, because
    `set_query` removes one leading `?` before encoding. -/
theorem C5_counterexample :
    ¬ plain_query (set_query ('?' :: ['a']) emptyUrl).st = '?' :: ['a'] := by
  decide

/-- C5 (amended): for every byte string v, setting a component with its
    plain (auto-encoding) setter and reading back the plain (decoded) form
    yields v for the user, password, hostname and fragment; for the query
    it yields v with one leading `?` stripped, because `set_query` removes
    that delimiter before encoding. -/
theorem C5_plain_roundtrip (v : List Char) (u : Url) (hwf : WF u)
    (hbytes : ∀ c ∈ v, c.toNat < 256) :
    plain_user (set_username v u).st = v ∧
    plain_password (set_password v u).st = v ∧
    plain_hostname (set_hostname v u).st = v ∧
    plain_fragment (set_fragment v u).st = v ∧
    plain_query (set_query v u).st =
      (if v.head? = some '?' then v.drop 1 else v) :=
  ⟨roundtrip_user u hwf v hbytes, roundtrip_password u hwf v hbytes,
   roundtrip_hostname u hwf v hbytes, roundtrip_fragment u hwf v hbytes,
   roundtrip_query u hwf v hbytes⟩

/-- C5 witness: the round trips at `http://h/` with the value `?a b`
    (exercising the `?`-stripping and the `%20` encoding of the space). -/
theorem C5_witness :
    WF httpH ∧ (∀ c ∈ ('?' :: "a b".data), c.toNat < 256) ∧
    (plain_user (set_username ('?' :: "a b".data) httpH).st =
        '?' :: "a b".data ∧
      plain_password (set_password ('?' :: "a b".data) httpH).st =
        '?' :: "a b".data ∧
      plain_hostname (set_hostname ('?' :: "a b".data) httpH).st =
        '?' :: "a b".data ∧
      plain_fragment (set_fragment ('?' :: "a b".data) httpH).st =
        '?' :: "a b".data ∧
      plain_query (set_query ('?' :: "a b".data) httpH).st =
        (if ('?' :: "a b".data).head? = some '?' then ('?' :: "a b".data).drop 1
         else '?' :: "a b".data)) :=
  ⟨by decide, by decide,
   C5_plain_roundtrip ('?' :: "a b".data) httpH (by decide) (by decide)⟩
